import Mathlib

/-!
Verification of the web-explorer session orchestration engine.

Shallow embedding of the repository's core components:
* the weighted action scheduler (`src/explorer/loop.ts`, `performRandomAction`),
* the proxy pool (`ProxyManager` in `src/proxy`),
* the exploration-loop recovery protocol (`src/explorer/index.ts`),
* link collection and fallback navigation (`collectInternalLinks`),
* the humanizer randomness helpers (`src/humanizer.ts`),
* the typing action (`humanType`).

Machine floats are modelled over ℚ/ℝ; `Math.random()` draws are explicit
parameters in [0,1); fallible page operations return `Except`.
-/

namespace WebExplorer

/-! ### Action kinds and the scheduler's cumulative-threshold selection

From `src/explorer/loop.ts`, `performRandomAction`: a single uniform draw
`roll = Math.random()` is compared against the cumulative thresholds
0.25, 0.37, 0.45, 0.63, 0.71, 0.78, 0.85. -/

inductive ActionKind where
  | scroll | hover | type | click | back | media | zoom | idle
  deriving DecidableEq, Repr, Fintype

/-- The if-chain of `performRandomAction` that maps the uniform draw to an
action kind (`if (roll < 0.25) … if (roll < 0.37) …` etc.). -/
def selectAction (roll : ℚ) : ActionKind :=
  if roll < 25/100 then .scroll
  else if roll < 37/100 then .hover
  else if roll < 45/100 then .type
  else if roll < 63/100 then .click
  else if roll < 71/100 then .back
  else if roll < 78/100 then .media
  else if roll < 85/100 then .zoom
  else .idle

/-- Lower cumulative threshold of each action kind's selection interval. -/
def cumLo : ActionKind → ℚ
  | .scroll => 0
  | .hover => 25/100
  | .type => 37/100
  | .click => 45/100
  | .back => 63/100
  | .media => 71/100
  | .zoom => 78/100
  | .idle => 85/100

/-- Upper cumulative threshold of each action kind's selection interval. -/
def cumHi : ActionKind → ℚ
  | .scroll => 25/100
  | .hover => 37/100
  | .type => 45/100
  | .click => 63/100
  | .back => 71/100
  | .media => 78/100
  | .zoom => 85/100
  | .idle => 1

/-- The documented selection probabilities (comment block above
`performRandomAction`: Scroll 25%, Hover 12%, Type 8%, Click 18%, Back 8%,
Media 7%, Zoom 7%, Idle 15%). -/
def actionWeight : ActionKind → ℚ
  | .scroll => 25/100
  | .hover => 12/100
  | .type => 8/100
  | .click => 18/100
  | .back => 8/100
  | .media => 7/100
  | .zoom => 7/100
  | .idle => 15/100

/-- C1: for every draw `r` in `[0,1)` the scheduler selects kind `k` exactly
when `r` lies in `[cumLo k, cumHi k)`; each interval's width is the documented
weight (scroll 0.25, hover 0.12, type 0.08, click 0.18, back 0.08,
media 0.07, zoom 0.07, idle 0.15), and the weights sum to 1. -/
theorem scheduler_distribution (r : ℚ) (h0 : 0 ≤ r) (h1 : r < 1) :
    (∀ k, selectAction r = k ↔ cumLo k ≤ r ∧ r < cumHi k) ∧
    (∀ k, cumHi k - cumLo k = actionWeight k) ∧
    (∑ k : ActionKind, actionWeight k) = 1 := by
  have main : ∀ k', selectAction r = k' → cumLo k' ≤ r ∧ r < cumHi k' := by
    intro k' hs
    unfold selectAction at hs
    split_ifs at hs with c1 c2 c3 c4 c5 c6 c7 <;> subst hs <;>
      simp only [cumLo, cumHi] <;> constructor <;> linarith
  refine ⟨?_, ?_, ?_⟩
  · intro k
    constructor
    · exact main k
    · intro hk
      by_contra hne
      obtain ⟨hl, hr⟩ := main (selectAction r) rfl
      cases k <;> cases hsel : selectAction r <;> simp [hsel] at hne ⊢ <;>
        rw [hsel] at hl hr <;> simp [cumLo, cumHi] at hl hr <;>
        obtain ⟨hkl, hkr⟩ := hk <;> simp [cumLo, cumHi] at hkl hkr <;> linarith
  · intro k; cases k <;> norm_num [cumLo, cumHi, actionWeight]
  · rw [show (Finset.univ : Finset ActionKind) =
        {ActionKind.scroll, ActionKind.hover, ActionKind.type, ActionKind.click,
         ActionKind.back, ActionKind.media, ActionKind.zoom, ActionKind.idle} from by decide]
    rw [Finset.sum_insert (by decide), Finset.sum_insert (by decide),
      Finset.sum_insert (by decide), Finset.sum_insert (by decide),
      Finset.sum_insert (by decide), Finset.sum_insert (by decide),
      Finset.sum_insert (by decide), Finset.sum_singleton]
    norm_num [actionWeight]

/-- Witness for `scheduler_distribution` at `r = 1/2`: the draw 0.5 lies in
the click interval `[0.45, 0.63)`. -/
theorem scheduler_distribution_witness : selectAction (1/2) = ActionKind.click :=
  ((scheduler_distribution (1/2) (by norm_num) (by norm_num)).1
    ActionKind.click).mpr (by norm_num [cumLo, cumHi])

/-! ### Proxy pool (`ProxyManager`, `src/proxy/index.ts`)

The pool is an ordered list of entries plus a rotation cursor.  `getNext`
returns the entry at the cursor and advances the cursor modulo the pool size
(returning `none` on an empty pool); `markDead` removes an entry by its
canonical `server` address and resets the cursor to 0 when it falls out of
the shrunk pool's bounds. -/

structure ProxyEntry where
  server : String
  protocol : String
  host : String
  port : ℕ
  username : Option String := none
  password : Option String := none
  deriving DecidableEq, Repr

structure ProxyManager where
  proxies : List ProxyEntry
  currentIndex : ℕ
  deriving DecidableEq, Repr

namespace ProxyManager

/-- `getNext()`: `if (length === 0) return undefined; const proxy =
proxies[currentIndex]; currentIndex = (currentIndex + 1) % proxies.length`. -/
def getNext (pm : ProxyManager) : Option ProxyEntry × ProxyManager :=
  if pm.proxies.length = 0 then (none, pm)
  else (pm.proxies.get? pm.currentIndex,
    { pm with currentIndex := (pm.currentIndex + 1) % pm.proxies.length })

/-- `markDead(proxy)`: `proxies = proxies.filter(p => p.server !== proxy.server);
if (currentIndex >= proxies.length) currentIndex = 0`. -/
def markDead (pm : ProxyManager) (proxy : ProxyEntry) : ProxyManager :=
  let remaining := pm.proxies.filter (fun p => p.server ≠ proxy.server)
  { proxies := remaining,
    currentIndex := if remaining.length ≤ pm.currentIndex then 0 else pm.currentIndex }

/-- `n` consecutive `getNext()` calls, collecting the returned entries. -/
def getNextN : ℕ → ProxyManager → List (Option ProxyEntry) × ProxyManager
  | 0, pm => ([], pm)
  | n + 1, pm =>
    let r := getNext pm
    let rest := getNextN n r.2
    (r.1 :: rest.1, rest.2)

/-- The cursor invariant: the cursor indexes a valid entry or the pool is
empty. -/
def Valid (pm : ProxyManager) : Prop :=
  pm.proxies = [] ∨ pm.currentIndex < pm.proxies.length

lemma valid_getNext (pm : ProxyManager) : Valid (getNext pm).2 := by
  unfold getNext Valid
  by_cases h : pm.proxies.length = 0
  · simp [h, List.length_eq_zero.mp h]
  · right
    simpa [h] using Nat.mod_lt _ (Nat.pos_of_ne_zero h)

lemma valid_markDead (pm : ProxyManager) (e : ProxyEntry) : Valid (markDead pm e) := by
  unfold markDead Valid
  set remaining := pm.proxies.filter (fun p => p.server ≠ e.server) with hrem
  by_cases h : remaining = []
  · left; simpa using h
  · right
    have hpos : 0 < remaining.length := List.length_pos.mpr h
    by_cases hc : remaining.length ≤ pm.currentIndex <;> simp [hc]
    · exact hpos
    · exact Nat.lt_of_not_le hc

/-- Trace of the cursor/pool across `n` rotation calls, starting from a valid
cursor: the k-th call returns the entry at `(cursor + k) % K`, and the pool
itself is untouched. -/
lemma getNextN_spec (n : ℕ) :
    ∀ pm : ProxyManager, pm.currentIndex < pm.proxies.length →
      (getNextN n pm).1 =
        (List.range n).map
          (fun k => pm.proxies.get? ((pm.currentIndex + k) % pm.proxies.length)) ∧
      (getNextN n pm).2.proxies = pm.proxies ∧
      (getNextN n pm).2.currentIndex = (pm.currentIndex + n) % pm.proxies.length := by
  induction n with
  | zero =>
    intro pm h
    exact ⟨rfl, rfl, by simp [getNextN, Nat.mod_eq_of_lt h]⟩
  | succ n ih =>
    intro pm h
    have hlen : 0 < pm.proxies.length := Nat.lt_of_le_of_lt (Nat.zero_le _) h
    have hne : pm.proxies.length ≠ 0 := Nat.pos_iff_ne_zero.mp hlen
    have hgn : getNext pm = (pm.proxies.get? pm.currentIndex,
        { pm with currentIndex := (pm.currentIndex + 1) % pm.proxies.length }) := by
      simp [getNext, hne]
    obtain ⟨e1, e2, e3⟩ :=
      ih { pm with currentIndex := (pm.currentIndex + 1) % pm.proxies.length }
        (Nat.mod_lt _ hlen)
    have hunf : getNextN (n + 1) pm =
        ((getNext pm).1 :: (getNextN n (getNext pm).2).1, (getNextN n (getNext pm).2).2) := rfl
    rw [hunf, hgn]
    dsimp only
    dsimp only at e1 e2 e3
    refine ⟨?_, e2, ?_⟩
    · rw [e1, List.range_succ_eq_map, List.map_cons, List.map_map]
      congr 1
      · congr 1
        rw [Nat.add_zero, Nat.mod_eq_of_lt h]
      · apply List.map_congr_left
        intro k _
        dsimp only [Function.comp]
        congr 1
        rw [Nat.mod_add_mod]
        congr 1
        omega
    · rw [e3, Nat.mod_add_mod]
      congr 1
      omega

/-- C3: on a valid pool of `K ≥ 1` entries, `K` consecutive `getNext` calls
return exactly the rotation of the pool starting at the cursor (so each entry
exactly once, in stable cyclic order); each call returns the entry at the
cursor and advances the cursor modulo `K`; an empty pool yields `none`. -/
theorem proxy_round_robin (pm : ProxyManager)
    (h : pm.currentIndex < pm.proxies.length) :
    (getNextN pm.proxies.length pm).1 =
      (pm.proxies.rotate pm.currentIndex).map some ∧
    (pm.proxies.rotate pm.currentIndex).Perm pm.proxies ∧
    getNext pm = (pm.proxies.get? pm.currentIndex,
      { pm with currentIndex := (pm.currentIndex + 1) % pm.proxies.length }) ∧
    (∀ pm' : ProxyManager, pm'.proxies = [] → getNext pm' = (none, pm')) := by
  have hlen : 0 < pm.proxies.length := Nat.lt_of_le_of_lt (Nat.zero_le _) h
  have hne : pm.proxies.length ≠ 0 := Nat.pos_iff_ne_zero.mp hlen
  refine ⟨?_, List.rotate_perm _ _, by simp [getNext, hne], ?_⟩
  · obtain ⟨e1, _, _⟩ := getNextN_spec pm.proxies.length pm h
    rw [e1]
    apply List.ext_get?
    intro i
    by_cases hi : i < pm.proxies.length
    · have hmem : (pm.currentIndex + i) % pm.proxies.length < pm.proxies.length :=
        Nat.mod_lt _ hlen
      simp only [List.get?_map, List.get?_range hi, List.get?_rotate hi, Option.map_some']
      rw [Nat.add_comm i pm.currentIndex, List.get?_eq_get hmem]
      rfl
    · have h1 : ((List.range pm.proxies.length).map
          (fun k => pm.proxies.get? ((pm.currentIndex + k) % pm.proxies.length))).length
          = pm.proxies.length := by simp
      have h2 : ((pm.proxies.rotate pm.currentIndex).map some).length
          = pm.proxies.length := by simp
      rw [List.get?_eq_none.mpr (by omega), List.get?_eq_none.mpr (by omega)]
  · intro pm' hp
    simp [getNext, hp]

/-- A concrete 3-entry pool used to witness the round-robin theorem. -/
def samplePool : ProxyManager :=
  ⟨[⟨"http://a:1", "http", "a", 1, none, none⟩,
    ⟨"http://b:2", "http", "b", 2, none, none⟩,
    ⟨"http://c:3", "http", "c", 3, none, none⟩], 1⟩

/-- Witness for `proxy_round_robin` on a concrete 3-entry pool with cursor 1:
the three calls return B, C, A. -/
theorem proxy_round_robin_witness :
    (getNextN 3 samplePool).1 =
      [some ⟨"http://b:2", "http", "b", 2, none, none⟩,
       some ⟨"http://c:3", "http", "c", 3, none, none⟩,
       some ⟨"http://a:1", "http", "a", 1, none, none⟩] := by
  have h := (proxy_round_robin samplePool (by decide)).1
  exact h.trans (by rfl)

/-- The two mutating operations sessions perform against the shared pool. -/
inductive PoolOp where
  | next : PoolOp
  | dead : ProxyEntry → PoolOp

/-- State transition of the pool under one operation. -/
def applyOp (pm : ProxyManager) : PoolOp → ProxyManager
  | .next => (getNext pm).2
  | .dead e => markDead pm e

lemma valid_applyOp (pm : ProxyManager) (op : PoolOp) : Valid (applyOp pm op) := by
  cases op with
  | next => exact valid_getNext pm
  | dead e => exact valid_markDead pm e

lemma valid_foldl (ops : List PoolOp) :
    ∀ pm : ProxyManager, Valid pm → Valid (ops.foldl applyOp pm) := by
  induction ops with
  | nil => intro pm hv; exact hv
  | cons op ops ih => intro pm _; exact ih _ (valid_applyOp pm op)

/-- C4: starting from a valid pool, any sequence of `getNext`/`markDead`
operations keeps the cursor indexing a valid entry (or empties the pool);
`markDead` removes exactly the entries with the dead entry's canonical
`server` address and resets an out-of-bounds cursor to 0; and after any
`markDead` that leaves the pool non-empty, `getNext` returns an entry of the
remaining pool — never a removed entry. -/
theorem proxy_cursor_invariant (pm : ProxyManager) (hv : Valid pm) :
    (∀ ops : List PoolOp, Valid (ops.foldl applyOp pm)) ∧
    (∀ e : ProxyEntry,
      (markDead pm e).proxies = pm.proxies.filter (fun p => p.server ≠ e.server) ∧
      (markDead pm e).currentIndex =
        if (pm.proxies.filter (fun p => p.server ≠ e.server)).length ≤ pm.currentIndex
        then 0 else pm.currentIndex) ∧
    (∀ e : ProxyEntry, (markDead pm e).proxies ≠ [] →
      ∃ p, (getNext (markDead pm e)).1 = some p ∧
        p ∈ (markDead pm e).proxies ∧ p.server ≠ e.server) := by
  refine ⟨fun ops => valid_foldl ops pm hv, fun e => ⟨rfl, rfl⟩, ?_⟩
  intro e hne
  rcases valid_markDead pm e with hempty | hlt
  · exact absurd hempty hne
  · have hlen : (markDead pm e).proxies.length ≠ 0 := by
      intro h0; exact hne (List.length_eq_zero.mp h0)
    refine ⟨(markDead pm e).proxies.get ⟨(markDead pm e).currentIndex, hlt⟩, ?_, ?_, ?_⟩
    · simp [getNext, hlen, List.get?_eq_get hlt]
    · exact List.get_mem _ _ _
    · have hmem : (markDead pm e).proxies.get ⟨(markDead pm e).currentIndex, hlt⟩
          ∈ pm.proxies.filter (fun p => p.server ≠ e.server) := List.get_mem _ _ _
      simpa using (List.mem_filter.mp hmem).2

/-- Witness for `proxy_cursor_invariant`: on the 3-entry sample pool, after a
rotation step and killing entry A the cursor still indexes a live entry, and
the next `getNext` skips the removed entry. -/
theorem proxy_cursor_invariant_witness :
    Valid ([PoolOp.next,
            PoolOp.dead ⟨"http://a:1", "http", "a", 1, none, none⟩].foldl
              applyOp samplePool) ∧
    ∃ p, (getNext (markDead samplePool ⟨"http://a:1", "http", "a", 1, none, none⟩)).1
          = some p ∧
      p ∈ (markDead samplePool ⟨"http://a:1", "http", "a", 1, none, none⟩).proxies ∧
      p.server ≠ "http://a:1" := by
  have h := proxy_cursor_invariant samplePool (Or.inr (by decide))
  exact ⟨h.1 _, h.2.2 ⟨"http://a:1", "http", "a", 1, none, none⟩ (by decide)⟩

end ProxyManager

/-! ### Proxy loading and pool initialization
(`loadProxies` in `src/proxy/loader.ts`, `ProxyManager.initialize`)

The proxies file is modelled as `none` (missing) or its list of raw lines
(the source splits the file content on newlines).  Parsing one URI line
(`parseProxyLine`, built on the WHATWG `URL` parser) and the network health
check (`checkProxy`) are external collaborators, abstracted as the `parseLine`
and `healthy` oracles. -/

/-- JavaScript `String.prototype.trim()`: strip whitespace at both ends. -/
def jsTrim (s : String) : String :=
  ⟨((s.data.dropWhile Char.isWhitespace).reverse.dropWhile Char.isWhitespace).reverse⟩

/-- `line.startsWith('#')`. -/
def startsWithHash (s : String) : Bool :=
  match s.data with
  | [] => false
  | c :: _ => c = '#'

/-- The loader's line pipeline: trim each raw line, skip blank lines and `#`
comments, parse each survivor, and skip lines whose parse fails. -/
def parsedProxies (lines : List String) (parseLine : String → Option ProxyEntry) :
    List ProxyEntry :=
  ((lines.map jsTrim).filter
    (fun l => !(l == "") && !(startsWithHash l))).filterMap parseLine

/-- `loadProxies(filePath)`: throws when the file does not exist, otherwise
runs the line pipeline. -/
def loadProxies (file : Option (List String))
    (parseLine : String → Option ProxyEntry) : Except String (List ProxyEntry) :=
  match file with
  | none => .error "Proxies file not found"
  | some lines => .ok (parsedProxies lines parseLine)

/-- `ProxyManager.initialize(filePath)`: load; if zero entries parsed, warn
and run proxyless (empty pool, normal return); otherwise health-check (the
concurrent check returns the entries passing the `healthy` oracle, in
order) and throw when none passed. -/
def initializePool (file : Option (List String))
    (parseLine : String → Option ProxyEntry) (healthy : ProxyEntry → Bool) :
    Except String (List ProxyEntry) :=
  match loadProxies file parseLine with
  | .error e => .error e
  | .ok allProxies =>
    if allProxies.length = 0 then .ok []
    else
      let working := allProxies.filter healthy
      if working.length = 0 then
        .error "No working proxies found! All proxies failed health check."
      else .ok working

/-- C5: initialization throws exactly when the file is missing or when at
least one entry was parsed but none passed the health check; a file whose
lines yield no parsed entry (empty, comments/blank only, or all malformed)
returns normally with an empty pool; in the success case the pool is exactly
the parsed entries that passed the health check. -/
theorem proxy_initialize_failure_modes (file : Option (List String))
    (parseLine : String → Option ProxyEntry) (healthy : ProxyEntry → Bool) :
    ((∃ err, initializePool file parseLine healthy = .error err) ↔
      file = none ∨
      (∃ lines, file = some lines ∧ parsedProxies lines parseLine ≠ [] ∧
        (parsedProxies lines parseLine).filter healthy = [])) ∧
    (∀ lines, file = some lines → parsedProxies lines parseLine = [] →
      initializePool file parseLine healthy = .ok []) ∧
    (∀ lines, file = some lines → parsedProxies lines parseLine ≠ [] →
      (parsedProxies lines parseLine).filter healthy ≠ [] →
      initializePool file parseLine healthy =
        .ok ((parsedProxies lines parseLine).filter healthy)) := by
  refine ⟨?_, ?_, ?_⟩
  · constructor
    · rintro ⟨err, herr⟩
      cases file with
      | none => exact Or.inl rfl
      | some lines =>
        refine Or.inr ⟨lines, rfl, ?_⟩
        by_cases h0 : parsedProxies lines parseLine = []
        · simp [initializePool, loadProxies, h0] at herr
        · by_cases hw : (parsedProxies lines parseLine).filter healthy = []
          · exact ⟨h0, hw⟩
          · have hlen : (parsedProxies lines parseLine).length ≠ 0 := by
              simpa [List.length_eq_zero] using h0
            have hwlen : ((parsedProxies lines parseLine).filter healthy).length ≠ 0 := by
              simpa [List.length_eq_zero] using hw
            simp [initializePool, loadProxies, hlen, hwlen] at herr
    · rintro (hnone | ⟨lines, hl, h0, hw⟩)
      · subst hnone
        exact ⟨"Proxies file not found", rfl⟩
      · subst hl
        have hlen : (parsedProxies lines parseLine).length ≠ 0 := by
          simpa [List.length_eq_zero] using h0
        refine ⟨"No working proxies found! All proxies failed health check.", ?_⟩
        simp [initializePool, loadProxies, hlen, hw]
  · intro lines hl h0
    subst hl
    simp [initializePool, loadProxies, h0]
  · intro lines hl h0 hw
    subst hl
    have hlen : (parsedProxies lines parseLine).length ≠ 0 := by
      simpa [List.length_eq_zero] using h0
    have hwlen : ((parsedProxies lines parseLine).filter healthy).length ≠ 0 := by
      simpa [List.length_eq_zero] using hw
    simp [initializePool, loadProxies, hlen, hwlen]

/-- Witness for `proxy_initialize_failure_modes`: a comments/blank-only file
initializes to an empty pool (proxyless), and a file with one well-formed
line whose entry passes the health check initializes to exactly that entry. -/
theorem proxy_initialize_failure_modes_witness :
    initializePool (some ["# comment", "", "   "]) (fun _ => none) (fun _ => true)
      = .ok [] ∧
    initializePool (some ["# c", " http://a:1 ", ""])
      (fun l => if l = "http://a:1"
        then some ⟨"http://a:1", "http", "a", 1, none, none⟩ else none)
      (fun _ => true)
      = .ok [⟨"http://a:1", "http", "a", 1, none, none⟩] := by
  constructor
  · exact (proxy_initialize_failure_modes (some ["# comment", "", "   "])
      (fun _ => none) (fun _ => true)).2.1 _ rfl (by decide)
  · exact (proxy_initialize_failure_modes (some ["# c", " http://a:1 ", ""])
      (fun l => if l = "http://a:1"
        then some ⟨"http://a:1", "http", "a", 1, none, none⟩ else none)
      (fun _ => true)).2.2 _ rfl (by decide) (by decide)

/-! ### Action handlers and the scheduler's failure behaviour

Page-automation primitives are the external capability interface; each
fallible primitive is a field of `PageEnv` returning `Except` (an `error`
models the operation throwing: no matching element, stale handle, timeout).
The handlers' own try/catch placement is reproduced from the source:
`humanClick`, `humanMedia`, `humanZoom`, `humanBack` wrap their whole body,
`humanHover` guards each attempt, while `humanScroll`, `humanType` (after
the guarded visibility probes) and `humanIdle` contain unguarded primitive
calls.  `Math.random()` draws are fields of `Draws`; draws consumed only by
pure delays are omitted (time is not modelled). -/

/-- `randomInt(min, max)` from `src/humanizer.ts`:
`Math.floor(Math.random() * (max - min + 1)) + min`. -/
def jsRandomInt (lo hi : ℤ) (r : ℚ) : ℤ :=
  ⌊r * ((hi : ℚ) - (lo : ℚ) + 1)⌋ + lo

/-- JavaScript `s.startsWith(p)`. -/
def strStartsWith (s p : String) : Bool :=
  s.data.take p.data.length == p.data

/-- JavaScript try/catch over `Except`. -/
def tryCatchE {ε α : Type} (x : Except ε α) (h : ε → Except ε α) : Except ε α :=
  match x with
  | .error e => h e
  | .ok a => .ok a

/-- The fallible page primitives used by the action handlers (the capability
interface), as one page-world valuation. -/
structure PageEnv where
  /-- `page.url()` captured before the action. -/
  url : String
  /-- `page.url()` read after the action. -/
  urlAfter : String
  /-- `page.mouse.wheel` in `humanScroll` (by call index). -/
  wheel : ℕ → Except String Unit
  /-- `locator(INPUT_SELECTORS[i]).first().isVisible()` in `humanType`. -/
  inputVisible : ℕ → Except String Bool
  /-- `targetInput.click()` in `humanType` — not guarded in the source. -/
  inputClick : Except String Unit
  /-- `page.keyboard.type` of the correct character at position `i`. -/
  typeChar : ℕ → Except String Unit
  /-- `page.keyboard.type` of a typo character at position `i`. -/
  typeTypo : ℕ → Except String Unit
  /-- `page.keyboard.press('Backspace')` at position `i`. -/
  pressBackspace : ℕ → Except String Unit
  /-- `page.keyboard.press('Enter')` (submit). -/
  pressEnter : Except String Unit
  /-- One guarded hover attempt in `humanHover` (locator, visibility, bounding
  box, hover, text): `ok true` = a hover happened, `ok false` = skipped. -/
  hoverAttempt : ℕ → Except String Bool
  /-- The whole guarded body of `humanClick` (candidate gathering, pick,
  scroll-into-view, offset click): its result, or the exception it threw. -/
  clickBody : Except String (Option String)
  /-- `page.evaluate(() => window.history.length)` in `humanBack`. -/
  historyLength : Except String ℕ
  /-- `page.goBack(...)`. -/
  goBack : Except String Unit
  /-- `page.url()` after a successful `goBack`. -/
  backUrl : String
  /-- `page.goForward(...)`. -/
  goForward : Except String Unit
  /-- The whole guarded body of `humanMedia`. -/
  mediaBody : Except String (Option String)
  /-- The whole guarded body of `humanZoom`. -/
  zoomBody : Except String (Option String)
  /-- `page.mouse.wheel` inside the idle reading/slow-scroll simulations. -/
  idleWheel : ℕ → Except String Unit
  /-- `page.mouse.move` inside the idle mouse-drift simulation. -/
  mouseMove : ℕ → Except String Unit
  /-- `page.viewportSize()` (`none` in the drift simulation = bail out). -/
  viewport : Option Unit

/-- The `Math.random()` draws consumed by the handlers (beyond the
scheduler's own roll). -/
structure Draws where
  scrollSteps : ℚ
  scrollDir : ℕ → ℚ
  scrollAmt : ℕ → ℚ
  hoverCount : ℚ
  termRoll : ℚ
  typoRoll : ℕ → ℚ
  submitRoll : ℚ
  idleRoll : ℚ
  idleIters : ℕ
  idleScroll : ℕ → ℚ
  idleCount : ℚ
  idleMoves : ℚ

/-- The scroll loop of `humanScroll`: per step an unguarded
`page.mouse.wheel` (an exception propagates), accumulating the net scroll. -/
def scrollLoop (env : PageEnv) (d : Draws) : ℕ → ℕ → ℤ → Except String ℤ
  | 0, _, total => .ok total
  | n + 1, i, total => do
    let dir : ℤ := if d.scrollDir i > 15/100 then 1 else -1
    let amount := jsRandomInt 100 500 (d.scrollAmt i) * dir
    let _ ← env.wheel i
    scrollLoop env d n (i + 1) (total + amount)

/-- `humanScroll` (`src/actions/scroll.ts`): `randomInt(3,8)` wheel steps,
85% downward, each `randomInt(100,500)` units; no try/catch in the source. -/
def humanScroll (env : PageEnv) (d : Draws) : Except String ℤ :=
  scrollLoop env d (jsRandomInt 3 8 d.scrollSteps).toNat 0 0

/-- The attempt loop of `humanHover`: each attempt's body is inside
`try { … } catch { continue }`, so a failed attempt is skipped. -/
def hoverLoop (env : PageEnv) : ℕ → ℕ → ℕ → ℕ
  | 0, _, acc => acc
  | n + 1, i, acc =>
    match env.hoverAttempt i with
    | .ok true => hoverLoop env n (i + 1) (acc + 1)
    | _ => hoverLoop env n (i + 1) acc

/-- `humanHover` (`src/actions/hover.ts`): `randomInt(1,4)` guarded attempts;
returns the number of successful hovers and never throws. -/
def humanHover (env : PageEnv) (d : Draws) : Except String ℕ :=
  .ok (hoverLoop env (jsRandomInt 1 4 d.hoverCount).toNat 0 0)

/-- The input-selector probe loop of `humanType`: each
`isVisible({timeout:1000})` is inside `try { … } catch { continue }`. -/
def findInputAux (env : PageEnv) : ℕ → ℕ → Option ℕ
  | 0, _ => none
  | fuel + 1, i =>
    match env.inputVisible i with
    | .ok true => some i
    | _ => findInputAux env fuel (i + 1)

/-- First of the five `INPUT_SELECTORS` resolving to a visible element. -/
def findInput (env : PageEnv) : Option ℕ :=
  findInputAux env 5 0

/-- The fixed `SEARCH_TERMS` list of `humanType`. -/
def SEARCH_TERMS : List String :=
  ["about", "contact", "products", "services", "pricing",
   "blog", "news", "help", "faq", "support"]

/-- The character-by-character typing loop of `humanType`: with 10%
probability per character after the first, type a typo character, press
Backspace, then the correct character; none of these keyboard calls is
guarded, so a failure propagates. -/
def typeLoop (env : PageEnv) (d : Draws) : List Char → ℕ → Except String Unit
  | [], _ => .ok ()
  | _c :: cs, i => do
    let _ ← (if d.typoRoll i < 1/10 ∧ 0 < i then do
        let _ ← env.typeTypo i
        let _ ← env.pressBackspace i
        (.ok () : Except String Unit)
      else .ok ())
    let _ ← env.typeChar i
    typeLoop env d cs (i + 1)

/-- `humanType` (`src/actions/type.ts`): probe the input selectors (guarded),
return `false` if none is visible; otherwise click the field (unguarded),
type the picked term character-by-character (unguarded), 50% chance to
submit with Enter, and return `true`. -/
def humanType (env : PageEnv) (d : Draws) : Except String Bool :=
  match findInput env with
  | none => .ok false
  | some _ => do
    let _ ← env.inputClick
    let searchTerm :=
      (SEARCH_TERMS.get? (jsRandomInt 0 (SEARCH_TERMS.length - 1) d.termRoll).toNat).getD
        "about"
    let _ ← typeLoop env d searchTerm.data 0
    let _ ← (if d.submitRoll > 1/2 then do
        let _ ← env.pressEnter
        (.ok () : Except String Unit)
      else .ok ())
    .ok true

/-- `humanClick` (`src/actions/click.ts`): the entire body is inside one
`try { … } catch { return null }`. -/
def humanClick (env : PageEnv) : Except String (Option String) :=
  tryCatchE env.clickBody (fun _ => .ok none)

/-- `humanBack` (`src/actions/back.ts`): inside one try/catch — skip on a
non-http page or history depth ≤ 1; go back; if the landing URL is non-http,
go forward again and report `none`; report the landing URL only when it is
an http URL different from the starting one. -/
def humanBack (env : PageEnv) : Except String (Option String) :=
  tryCatchE
    (if strStartsWith env.url "http" = false then .ok none
     else do
      let hl ← env.historyLength
      if hl ≤ 1 then .ok none
      else do
        let _ ← env.goBack
        if strStartsWith env.backUrl "http" = false then do
          let _ ← env.goForward
          .ok none
        else if env.backUrl ≠ env.url then .ok (some env.backUrl)
        else .ok none)
    (fun _ => .ok none)

/-- `humanMedia` (`src/actions/media.ts`): whole body guarded. -/
def humanMedia (env : PageEnv) : Except String (Option String) :=
  tryCatchE env.mediaBody (fun _ => .ok none)

/-- `humanZoom` (`src/actions/zoom.ts`): whole body guarded. -/
def humanZoom (env : PageEnv) : Except String (Option String) :=
  tryCatchE env.zoomBody (fun _ => .ok none)

/-- The reading loop of `simulateReading` (`src/actions/idle.ts`): per clock
tick a 30% chance of an unguarded small `page.mouse.wheel`. -/
def readLoop (env : PageEnv) (d : Draws) : ℕ → ℕ → Except String Unit
  | 0, _ => .ok ()
  | n + 1, i => do
    let _ ← (if d.idleScroll i < 3/10 then env.idleWheel i else .ok ())
    readLoop env d n (i + 1)

/-- The wheel loop of `simulateSlowScroll`: unguarded wheel calls. -/
def slowScrollLoop (env : PageEnv) : ℕ → ℕ → Except String Unit
  | 0, _ => .ok ()
  | n + 1, i => do
    let _ ← env.idleWheel i
    slowScrollLoop env n (i + 1)

/-- The pointer loop of `simulateMouseDrift`: unguarded mouse moves. -/
def driftLoop (env : PageEnv) : ℕ → ℕ → Except String Unit
  | 0, _ => .ok ()
  | n + 1, i => do
    let _ ← env.mouseMove i
    driftLoop env n (i + 1)

/-- `humanIdle` (`src/actions/idle.ts`): roll the idle type
(reading 35% / distracted 25% / slow-scroll 20% / mouse-drift 20%) and run
the simulation; no try/catch anywhere in the file. -/
def humanIdle (env : PageEnv) (d : Draws) : Except String String :=
  if d.idleRoll < 35/100 then do
    let _ ← readLoop env d d.idleIters 0
    .ok "reading"
  else if d.idleRoll < 60/100 then .ok "distracted"
  else if d.idleRoll < 80/100 then do
    let _ ← slowScrollLoop env (jsRandomInt 3 6 d.idleCount).toNat 0
    .ok "slow-scroll"
  else
    match env.viewport with
    | none => .ok "No viewport"
    | some _ => do
      let _ ← driftLoop env (jsRandomInt 3 7 d.idleMoves).toNat 0
      .ok "mouse-drift"

/-- `performRandomAction` (`src/explorer/loop.ts`): select the action kind by
the cumulative thresholds on one roll (the `selectAction` if-chain), run the
handler, and derive the navigation flag: type/click report `true` only when
they succeeded and the page URL changed; back reports `true` exactly when
`humanBack` returned a URL; the other five kinds always report `false`.
There is no try/catch around the handler calls. -/
def performRandomAction (env : PageEnv) (d : Draws) (roll : ℚ) :
    Except String Bool :=
  match selectAction roll with
  | .scroll => do
    let _ ← humanScroll env d
    .ok false
  | .hover => do
    let _ ← humanHover env d
    .ok false
  | .type => do
    let typed ← humanType env d
    if typed then
      (if env.urlAfter ≠ env.url then .ok true else .ok false)
    else .ok false
  | .click => do
    let clicked ← humanClick env
    match clicked with
    | some _ => if env.urlAfter ≠ env.url then .ok true else .ok false
    | none => .ok false
  | .back => do
    let backUrl ← humanBack env
    .ok backUrl.isSome
  | .media => do
    let _ ← humanMedia env
    .ok false
  | .zoom => do
    let _ ← humanZoom env
    .ok false
  | .idle => do
    let _ ← humanIdle env d
    .ok false

/-- A healthy page world: every primitive succeeds. -/
def allOkEnv : PageEnv where
  url := "http://site/a"
  urlAfter := "http://site/a"
  wheel := fun _ => .ok ()
  inputVisible := fun _ => .ok true
  inputClick := .ok ()
  typeChar := fun _ => .ok ()
  typeTypo := fun _ => .ok ()
  pressBackspace := fun _ => .ok ()
  pressEnter := .ok ()
  hoverAttempt := fun _ => .ok true
  clickBody := .ok (some "link")
  historyLength := .ok 2
  goBack := .ok ()
  backUrl := "http://site/prev"
  goForward := .ok ()
  mediaBody := .ok none
  zoomBody := .ok none
  idleWheel := fun _ => .ok ()
  mouseMove := fun _ => .ok ()
  viewport := some ()

/-- A page world where the located search input goes stale before the
unguarded `targetInput.click()` in `humanType`. -/
def staleClickEnv : PageEnv :=
  { allOkEnv with inputClick := .error "stale handle" }

/-- A page world whose mouse wheel throws (e.g. the page was closed). -/
def deadPageEnv : PageEnv :=
  { allOkEnv with
    wheel := fun _ => .error "page closed"
    idleWheel := fun _ => .error "page closed" }

/-- A fixed valuation of the handlers' random draws. -/
def zeroDraws : Draws where
  scrollSteps := 0
  scrollDir := fun _ => 0
  scrollAmt := fun _ => 0
  hoverCount := 0
  termRoll := 0
  typoRoll := fun _ => 1
  submitRoll := 0
  idleRoll := 0
  idleIters := 1
  idleScroll := fun _ => 0
  idleCount := 0
  idleMoves := 0

lemma bind_ok {ε α β : Type} (a : α) (f : α → Except ε β) :
    (Except.ok a >>= f) = f a := rfl

lemma bind_error {ε α β : Type} (e : ε) (f : α → Except ε β) :
    ((Except.error e : Except ε α) >>= f) = Except.error e := rfl

lemma tryCatchE_const_ok {ε α : Type} (x : Except ε α) (y : α) :
    ∃ a, tryCatchE x (fun _ => .ok y) = .ok a := by
  cases x with
  | error e => exact ⟨y, rfl⟩
  | ok a => exact ⟨a, rfl⟩

lemma tryCatchE_eq_ok {ε α : Type} {x : Except ε α} {f : ε → Except ε α} {v : α}
    (h : tryCatchE x f = .ok v) : x = .ok v ∨ ∃ e, f e = .ok v := by
  unfold tryCatchE at h
  cases x with
  | error e => exact Or.inr ⟨e, h⟩
  | ok a => exact Or.inl h

lemma humanClick_never_throws (env : PageEnv) :
    ∃ a, humanClick env = .ok a := tryCatchE_const_ok env.clickBody none

lemma humanMedia_never_throws (env : PageEnv) :
    ∃ a, humanMedia env = .ok a := tryCatchE_const_ok env.mediaBody none

lemma humanZoom_never_throws (env : PageEnv) :
    ∃ a, humanZoom env = .ok a := tryCatchE_const_ok env.zoomBody none

lemma humanBack_never_throws (env : PageEnv) :
    ∃ a, humanBack env = .ok a := by
  unfold humanBack
  exact tryCatchE_const_ok _ none

lemma humanHover_never_throws (env : PageEnv) (d : Draws) :
    ∃ a, humanHover env d = .ok a := ⟨_, rfl⟩

/-- `humanBack` reports a URL only when landing on an http page whose URL
differs from the starting one (the history-fallback guard). -/
lemma humanBack_ok_some (env : PageEnv) (u : String)
    (h : humanBack env = .ok (some u)) :
    strStartsWith u "http" = true ∧ u ≠ env.url := by
  unfold humanBack at h
  rcases tryCatchE_eq_ok h with hb | ⟨e, he⟩
  · by_cases h1 : strStartsWith env.url "http" = false
    · rw [if_pos h1] at hb
      exact absurd hb (by simp)
    · rw [if_neg h1] at hb
      cases hl : env.historyLength with
      | error e => rw [hl, bind_error] at hb; exact absurd hb (by simp)
      | ok n =>
        rw [hl, bind_ok] at hb
        by_cases h2 : n ≤ 1
        · rw [if_pos h2] at hb; exact absurd hb (by simp)
        · rw [if_neg h2] at hb
          cases gb : env.goBack with
          | error e => rw [gb, bind_error] at hb; exact absurd hb (by simp)
          | ok x =>
            rw [gb, bind_ok] at hb
            by_cases h3 : strStartsWith env.backUrl "http" = false
            · rw [if_pos h3] at hb
              cases gf : env.goForward with
              | error e => rw [gf, bind_error] at hb; exact absurd hb (by simp)
              | ok y => rw [gf, bind_ok] at hb; exact absurd hb (by simp)
            · rw [if_neg h3] at hb
              by_cases h4 : env.backUrl = env.url
              · rw [if_neg (fun hc => hc h4)] at hb
                exact absurd hb (by simp)
              · rw [if_pos h4] at hb
                have hu : env.backUrl = u := by
                  simpa using hb
                subst hu
                exact ⟨Bool.not_eq_false _ ▸ (by simpa using h3), h4⟩
  · exact absurd he (by simp)

/-- C2 (amended): the hover, click, back, media and zoom handlers absorb
every internal failure, so for those selected kinds `performRandomAction`
returns normally for every page state and all randomness; but the type,
scroll and idle handlers contain unguarded page operations, so an internal
failure there escapes `performRandomAction`. -/
theorem scheduler_exception_boundary :
    (∀ (env : PageEnv) (d : Draws) (roll : ℚ),
      (selectAction roll = .hover ∨ selectAction roll = .click ∨
       selectAction roll = .back ∨ selectAction roll = .media ∨
       selectAction roll = .zoom) →
      ∃ b, performRandomAction env d roll = .ok b) ∧
    (∃ (env : PageEnv) (d : Draws) (roll : ℚ) (err : String),
      selectAction roll = .type ∧ performRandomAction env d roll = .error err) ∧
    (∃ (env : PageEnv) (d : Draws) (roll : ℚ) (err : String),
      selectAction roll = .scroll ∧ performRandomAction env d roll = .error err) ∧
    (∃ (env : PageEnv) (d : Draws) (roll : ℚ) (err : String),
      selectAction roll = .idle ∧ performRandomAction env d roll = .error err) := by
  refine ⟨?_, ?_, ?_, ?_⟩
  · intro env d roll hsel
    rcases hsel with hs | hs | hs | hs | hs <;>
      (unfold performRandomAction; rw [hs])
    · exact ⟨false, rfl⟩
    · obtain ⟨a, ha⟩ := humanClick_never_throws env
      rw [ha, bind_ok]
      cases a with
      | none => exact ⟨false, rfl⟩
      | some s =>
        by_cases hu : env.urlAfter ≠ env.url
        · exact ⟨true, by rw [show (match some s with
            | some _ => if env.urlAfter ≠ env.url then (Except.ok true : Except String Bool)
                        else .ok false
            | none => .ok false)
            = if env.urlAfter ≠ env.url then (Except.ok true : Except String Bool)
              else .ok false from rfl, if_pos hu]⟩
        · exact ⟨false, by rw [show (match some s with
            | some _ => if env.urlAfter ≠ env.url then (Except.ok true : Except String Bool)
                        else .ok false
            | none => .ok false)
            = if env.urlAfter ≠ env.url then (Except.ok true : Except String Bool)
              else .ok false from rfl, if_neg hu]⟩
    · obtain ⟨a, ha⟩ := humanBack_never_throws env
      rw [ha]
      exact ⟨a.isSome, rfl⟩
    · obtain ⟨a, ha⟩ := humanMedia_never_throws env
      rw [ha]
      exact ⟨false, rfl⟩
    · obtain ⟨a, ha⟩ := humanZoom_never_throws env
      rw [ha]
      exact ⟨false, rfl⟩
  · refine ⟨staleClickEnv, zeroDraws, 2/5, "stale handle",
      by norm_num [selectAction], ?_⟩
    unfold performRandomAction
    rw [show selectAction (2/5) = ActionKind.type from by norm_num [selectAction]]
    dsimp only
    rw [show humanType staleClickEnv zeroDraws = .error "stale handle" from rfl,
      bind_error]
  · refine ⟨deadPageEnv, zeroDraws, 0, "page closed",
      by norm_num [selectAction], ?_⟩
    unfold performRandomAction
    rw [show selectAction 0 = ActionKind.scroll from by norm_num [selectAction]]
    dsimp only
    have h1 : humanScroll deadPageEnv zeroDraws = .error "page closed" := by
      unfold humanScroll
      rw [show jsRandomInt 3 8 zeroDraws.scrollSteps = (3 : ℤ) from by
        norm_num [jsRandomInt, zeroDraws]]
      rfl
    rw [h1, bind_error]
  · refine ⟨deadPageEnv, zeroDraws, 9/10, "page closed",
      by norm_num [selectAction], ?_⟩
    unfold performRandomAction
    rw [show selectAction (9/10) = ActionKind.idle from by norm_num [selectAction]]
    dsimp only
    have hscroll : (if zeroDraws.idleScroll 0 < 3/10
        then deadPageEnv.idleWheel 0 else .ok ()) = Except.error "page closed" := by
      rw [if_pos (show zeroDraws.idleScroll 0 < 3/10 from by norm_num [zeroDraws])]
      rfl
    have hread : readLoop deadPageEnv zeroDraws 1 0 = .error "page closed" := by
      show (do
        let _ ← (if zeroDraws.idleScroll 0 < 3/10
          then deadPageEnv.idleWheel 0 else .ok ())
        readLoop deadPageEnv zeroDraws 0 1) = .error "page closed"
      rw [hscroll, bind_error]
    have h1 : humanIdle deadPageEnv zeroDraws = .error "page closed" := by
      unfold humanIdle
      rw [if_pos (show zeroDraws.idleRoll < 35/100 from by norm_num [zeroDraws])]
      rw [show zeroDraws.idleIters = 1 from rfl, hread, bind_error]
    rw [h1, bind_error]

/-- C2 counterexample: a page state and draw under which
`performRandomAction` does not return normally — the input selector resolves
to a visible element but the handle goes stale before the unguarded
`targetInput.click()` in `humanType`, and the exception escapes the
scheduler. -/
theorem scheduler_exception_counterexample :
    performRandomAction staleClickEnv zeroDraws (2/5) = .error "stale handle" := by
  unfold performRandomAction
  rw [show selectAction (2/5) = ActionKind.type from by norm_num [selectAction]]
  dsimp only
  rw [show humanType staleClickEnv zeroDraws = .error "stale handle" from rfl,
    bind_error]

/-- Witness for `scheduler_exception_boundary`: a click-branch invocation
returns normally on an arbitrary page world. -/
theorem scheduler_exception_boundary_witness :
    ∃ b, performRandomAction allOkEnv zeroDraws (1/2) = Except.ok b :=
  scheduler_exception_boundary.1 allOkEnv zeroDraws (1/2)
    (Or.inr (Or.inl (by norm_num [selectAction])))

/-- C6: whenever `performRandomAction` returns normally, the navigation flag
is `false` for scroll/hover/media/zoom/idle regardless of the handler's
outcome; for type and click it is `true` exactly when the handler succeeded
and the page URL after the action differs from the captured one; for back it
is `true` exactly when `humanBack` reported a URL — and `humanBack` reports
a URL only for a successful back-navigation to an http URL different from
the starting one. -/
theorem scheduler_navigation_flag (env : PageEnv) (d : Draws) (roll : ℚ)
    (b : Bool) (h : performRandomAction env d roll = .ok b) :
    ((selectAction roll = .scroll ∨ selectAction roll = .hover ∨
      selectAction roll = .media ∨ selectAction roll = .zoom ∨
      selectAction roll = .idle) → b = false) ∧
    (selectAction roll = .type →
      (b = true ↔ humanType env d = .ok true ∧ env.urlAfter ≠ env.url)) ∧
    (selectAction roll = .click →
      (b = true ↔ (∃ s, humanClick env = .ok (some s)) ∧ env.urlAfter ≠ env.url)) ∧
    (selectAction roll = .back →
      (b = true ↔ ∃ u, humanBack env = .ok (some u))) ∧
    (∀ u, humanBack env = .ok (some u) →
      strStartsWith u "http" = true ∧ u ≠ env.url) := by
  refine ⟨?_, ?_, ?_, ?_, fun u hu => humanBack_ok_some env u hu⟩
  · intro hsel
    rcases hsel with hs | hs | hs | hs | hs <;>
      (unfold performRandomAction at h; rw [hs] at h; dsimp only at h)
    · cases hsc : humanScroll env d with
      | error e => rw [hsc, bind_error] at h; exact absurd h (by simp)
      | ok v => rw [hsc, bind_ok] at h; exact (Except.ok.inj h).symm
    · exact (Except.ok.inj h).symm
    · cases hm : humanMedia env with
      | error e => rw [hm, bind_error] at h; exact absurd h (by simp)
      | ok v => rw [hm, bind_ok] at h; exact (Except.ok.inj h).symm
    · cases hz : humanZoom env with
      | error e => rw [hz, bind_error] at h; exact absurd h (by simp)
      | ok v => rw [hz, bind_ok] at h; exact (Except.ok.inj h).symm
    · cases hi : humanIdle env d with
      | error e => rw [hi, bind_error] at h; exact absurd h (by simp)
      | ok v => rw [hi, bind_ok] at h; exact (Except.ok.inj h).symm
  · intro hs
    unfold performRandomAction at h
    rw [hs] at h
    dsimp only at h
    cases ht : humanType env d with
    | error e => rw [ht, bind_error] at h; exact absurd h (by simp)
    | ok tv =>
      rw [ht, bind_ok] at h
      cases tv with
      | false =>
        simp only [Bool.false_eq_true, if_false] at h
        obtain rfl : b = false := (Except.ok.inj h).symm
        simp [ht]
      | true =>
        simp only [if_true] at h
        by_cases hu : env.urlAfter ≠ env.url
        · rw [if_pos hu] at h
          obtain rfl : b = true := (Except.ok.inj h).symm
          simp [ht, hu]
        · rw [if_neg hu] at h
          obtain rfl : b = false := (Except.ok.inj h).symm
          simp [ht, hu]
  · intro hs
    unfold performRandomAction at h
    rw [hs] at h
    dsimp only at h
    cases hc : humanClick env with
    | error e => rw [hc, bind_error] at h; exact absurd h (by simp)
    | ok a =>
      rw [hc, bind_ok] at h
      cases a with
      | none =>
        obtain rfl : b = false := (Except.ok.inj h).symm
        simp [hc]
      | some s =>
        dsimp only at h
        by_cases hu : env.urlAfter ≠ env.url
        · rw [if_pos hu] at h
          obtain rfl : b = true := (Except.ok.inj h).symm
          simp only [true_iff]
          exact ⟨⟨s, rfl⟩, hu⟩
        · rw [if_neg hu] at h
          obtain rfl : b = false := (Except.ok.inj h).symm
          simp [hu]
  · intro hs
    unfold performRandomAction at h
    rw [hs] at h
    dsimp only at h
    cases hbk : humanBack env with
    | error e => rw [hbk, bind_error] at h; exact absurd h (by simp)
    | ok o =>
      rw [hbk, bind_ok] at h
      obtain rfl : b = o.isSome := (Except.ok.inj h).symm
      cases o with
      | none => simp [hbk]
      | some u0 =>
        simp only [Option.isSome_some, true_iff]
        exact ⟨u0, rfl⟩

/-- A page world currently on a non-http page (`about:blank`). -/
def nonHttpEnv : PageEnv := { allOkEnv with url := "about:blank" }

/-- Witness for `scheduler_navigation_flag`: on a non-http page the back
branch reports no navigation, so `humanBack` cannot have reported a URL. -/
theorem scheduler_navigation_flag_witness :
    ¬ ∃ u, humanBack nonHttpEnv = Except.ok (some u) := by
  have h : performRandomAction nonHttpEnv zeroDraws (65/100) = .ok false := by
    unfold performRandomAction
    rw [show selectAction (65/100) = ActionKind.back from by norm_num [selectAction]]
    dsimp only
    rfl
  intro hex
  have hiff := (scheduler_navigation_flag nonHttpEnv zeroDraws (65/100) false h).2.2.2.1
    (by norm_num [selectAction])
  have hft : (false : Bool) = true := hiff.mpr hex
  simp at hft

/-! ### Session run and the recovery protocol
(`Explorer.run` in `src/explorer/index.ts`, `recoverWithNewProxy` in
`src/explorer/recovery.ts`)

`run()` acquires a proxy, launches the automation handle, navigates to the
target, seeds the visited set with the target URL and enters the exploration
loop — all inside one `try`.  The `catch` attempts recovery only when a
proxy was assigned and `getCount() > 1`: it marks the failed proxy dead and
calls `recoverWithNewProxy`, which draws a new proxy (bailing out when none
remains), relaunches, re-navigates, and re-enters the loop with the same
context fields.  Whether launch/goto/loop throw is the environment's choice
(`SessionEnv`); the loop's URL insertions during the first attempt are
`visitedGrowth`. -/

/-- The fields of `LoopContext` relevant to the recovery claim. -/
structure LoopCtx where
  visitedUrls : List String
  targetPages : ℕ
  targetDuration : ℕ
  startTime : ℕ
  deriving DecidableEq, Repr

/-- Environment choices: which phases of the session throw. -/
structure SessionEnv where
  /-- `launchBrowser`/initial `goto` outcome (`some` = threw before the loop). -/
  firstLaunch : Option String
  /-- First `explorationLoop` outcome (`some` = exception escaped the loop). -/
  firstLoop : Option String
  /-- URLs the first loop attempt inserted into the session's visited set. -/
  visitedGrowth : List String
  /-- Recovery `launchBrowser`/`goto` outcome. -/
  recoveryLaunch : Option String
  /-- Recovery `explorationLoop` outcome. -/
  recoveryLoop : Option String

/-- Observable outcome of a session run. -/
structure RunResult where
  /-- Context of each `explorationLoop` invocation, in order. -/
  loopCtxs : List LoopCtx
  /-- Proxies marked dead. -/
  deadMarked : List ProxyEntry
  /-- Whether the catch branch attempted recovery. -/
  recoveryRequested : Bool
  deriving DecidableEq, Repr

/-- The `catch` branch of `Explorer.run` plus `recoverWithNewProxy`:
recovery only when a proxy was assigned and more than one proxy exists;
then mark it dead, draw a new proxy (none left ⇒ give up), relaunch
(throw ⇒ give up), else re-enter the loop with the current session state. -/
def recoverBranch (pm1 : ProxyManager) (currentProxy : Option ProxyEntry)
    (visitedNow : List String) (tp td st : ℕ) (env : SessionEnv)
    (firstCtxs : List LoopCtx) : RunResult :=
  match currentProxy with
  | none => ⟨firstCtxs, [], false⟩
  | some p =>
    if 1 < pm1.proxies.length then
      let pm2 := ProxyManager.markDead pm1 p
      match (ProxyManager.getNext pm2).1 with
      | none => ⟨firstCtxs, [p], true⟩
      | some _ =>
        match env.recoveryLaunch with
        | some _ => ⟨firstCtxs, [p], true⟩
        | none => ⟨firstCtxs ++ [⟨visitedNow, tp, td, st⟩], [p], true⟩
    else ⟨firstCtxs, [], false⟩

/-- `Explorer.run`: one `try` (get proxy, launch, goto target, seed the
visited set with the target URL, run the loop) and one `catch` (the recovery
branch).  The second loop invocation, if any, reuses the same visited set,
target page count, target duration and start time. -/
def explorerRun (pm : ProxyManager) (cfgUrl : String) (tp td st : ℕ)
    (env : SessionEnv) : RunResult :=
  let r := ProxyManager.getNext pm
  match env.firstLaunch with
  | some _ => recoverBranch r.2 r.1 [] tp td st env []
  | none =>
    let ctx1 : LoopCtx := ⟨[cfgUrl], tp, td, st⟩
    match env.firstLoop with
    | none => ⟨[ctx1], [], false⟩
    | some _ => recoverBranch r.2 r.1 (cfgUrl :: env.visitedGrowth) tp td st env [ctx1]

lemma recoverBranch_len (pm1 : ProxyManager) (cp : Option ProxyEntry)
    (v : List String) (tp td st : ℕ) (env : SessionEnv) (fc : List LoopCtx) :
    (recoverBranch pm1 cp v tp td st env fc).loopCtxs.length ≤ fc.length + 1 := by
  unfold recoverBranch
  cases cp with
  | none => simp
  | some p =>
    dsimp only
    by_cases h : 1 < pm1.proxies.length
    · rw [if_pos h]
      cases (ProxyManager.getNext (ProxyManager.markDead pm1 p)).1 with
      | none => simp
      | some np =>
        cases env.recoveryLaunch with
        | none => simp
        | some e => simp
    · rw [if_neg h]; simp

/-- C7: recovery is attempted at most once; it happens exactly when the try
block threw, a proxy was assigned, and more than one proxy exists — and then
the failed proxy (and only it) is marked dead; a second loop invocation
always carries the identical visited set (the target URL plus the first
attempt's growth — not a reset copy), the same target page count, target
duration and start time; and when the recovery relaunch itself fails the
loop is never re-entered, ending the session. -/
lemma recoverBranch_dead_len (pm1 : ProxyManager) (cp : Option ProxyEntry)
    (v : List String) (tp td st : ℕ) (env : SessionEnv) (fc : List LoopCtx) :
    (recoverBranch pm1 cp v tp td st env fc).deadMarked.length ≤ 1 := by
  unfold recoverBranch
  cases cp with
  | none => simp
  | some p =>
    dsimp only
    by_cases h : 1 < pm1.proxies.length
    · rw [if_pos h]
      cases (ProxyManager.getNext (ProxyManager.markDead pm1 p)).1 with
      | none => simp
      | some np =>
        cases env.recoveryLaunch with
        | none => simp
        | some e => simp
    · rw [if_neg h]; simp

lemma recoverBranch_req_iff (pm1 : ProxyManager) (cp : Option ProxyEntry)
    (v : List String) (tp td st : ℕ) (env : SessionEnv) (fc : List LoopCtx) :
    (recoverBranch pm1 cp v tp td st env fc).recoveryRequested = true ↔
      cp.isSome ∧ 1 < pm1.proxies.length := by
  unfold recoverBranch
  cases cp with
  | none => simp
  | some p =>
    dsimp only
    by_cases h : 1 < pm1.proxies.length
    · rw [if_pos h]
      cases (ProxyManager.getNext (ProxyManager.markDead pm1 p)).1 with
      | none => simpa using h
      | some np =>
        cases env.recoveryLaunch with
        | none => simpa using h
        | some e => simpa using h
    · rw [if_neg h]; simpa using h

lemma recoverBranch_dead_eq (pm1 : ProxyManager) (cp : Option ProxyEntry)
    (v : List String) (tp td st : ℕ) (env : SessionEnv) (fc : List LoopCtx)
    (p : ProxyEntry) (hp : cp = some p)
    (hreq : (recoverBranch pm1 cp v tp td st env fc).recoveryRequested = true) :
    (recoverBranch pm1 cp v tp td st env fc).deadMarked = [p] := by
  subst hp
  unfold recoverBranch at hreq ⊢
  dsimp only at hreq ⊢
  by_cases h : 1 < pm1.proxies.length
  · rw [if_pos h] at hreq ⊢
    cases (ProxyManager.getNext (ProxyManager.markDead pm1 p)).1 with
    | none => rfl
    | some np =>
      cases env.recoveryLaunch with
      | none => rfl
      | some e => rfl
  · rw [if_neg h] at hreq
    simp at hreq

lemma recoverBranch_ctxs (pm1 : ProxyManager) (cp : Option ProxyEntry)
    (v : List String) (tp td st : ℕ) (env : SessionEnv) (fc : List LoopCtx) :
    (recoverBranch pm1 cp v tp td st env fc).loopCtxs = fc ∨
    ((recoverBranch pm1 cp v tp td st env fc).loopCtxs
        = fc ++ [⟨v, tp, td, st⟩] ∧ env.recoveryLaunch = none) := by
  unfold recoverBranch
  cases cp with
  | none => exact Or.inl rfl
  | some p =>
    dsimp only
    by_cases h : 1 < pm1.proxies.length
    · rw [if_pos h]
      cases (ProxyManager.getNext (ProxyManager.markDead pm1 p)).1 with
      | none => exact Or.inl rfl
      | some np =>
        cases hrl : env.recoveryLaunch with
        | none => exact Or.inr ⟨rfl, rfl⟩
        | some e => exact Or.inl rfl
    · rw [if_neg h]; exact Or.inl rfl

lemma recoverBranch_launchFail (pm1 : ProxyManager) (cp : Option ProxyEntry)
    (v : List String) (tp td st : ℕ) (env : SessionEnv) (fc : List LoopCtx)
    (hrl : env.recoveryLaunch.isSome) :
    (recoverBranch pm1 cp v tp td st env fc).loopCtxs = fc := by
  rcases recoverBranch_ctxs pm1 cp v tp td st env fc with hc | ⟨hc, hnone⟩
  · exact hc
  · rw [hnone] at hrl
    simp at hrl

theorem recovery_protocol (pm : ProxyManager) (cfgUrl : String) (tp td st : ℕ)
    (env : SessionEnv) :
    (explorerRun pm cfgUrl tp td st env).loopCtxs.length ≤ 2 ∧
    (explorerRun pm cfgUrl tp td st env).deadMarked.length ≤ 1 ∧
    ((explorerRun pm cfgUrl tp td st env).recoveryRequested = true ↔
      (env.firstLaunch.isSome ∨ env.firstLoop.isSome) ∧
      (ProxyManager.getNext pm).1.isSome ∧ 1 < pm.proxies.length) ∧
    (∀ p, (ProxyManager.getNext pm).1 = some p →
      (explorerRun pm cfgUrl tp td st env).recoveryRequested = true →
      (explorerRun pm cfgUrl tp td st env).deadMarked = [p]) ∧
    (∀ ctx1 ctx2, (explorerRun pm cfgUrl tp td st env).loopCtxs = [ctx1, ctx2] →
      ctx2 = ⟨cfgUrl :: env.visitedGrowth, tp, td, st⟩ ∧
      ctx1 = ⟨[cfgUrl], tp, td, st⟩) ∧
    (env.recoveryLaunch.isSome →
      (explorerRun pm cfgUrl tp td st env).loopCtxs.length ≤ 1) := by
  have hlist : pm.proxies.length = (ProxyManager.getNext pm).2.proxies.length := by
    unfold ProxyManager.getNext
    by_cases h : pm.proxies.length = 0 <;> simp [h]
  refine ⟨?_, ?_, ?_, ?_, ?_, ?_⟩
  · unfold explorerRun
    cases env.firstLaunch <;> cases env.firstLoop <;> dsimp only <;>
      first
        | simp
        | (refine le_trans (recoverBranch_len _ _ _ _ _ _ _ _) (by simp))
  · unfold explorerRun
    cases env.firstLaunch <;> cases env.firstLoop <;> dsimp only <;>
      first
        | simp
        | exact recoverBranch_dead_len _ _ _ _ _ _ _ _
  · unfold explorerRun
    cases hfl : env.firstLaunch <;> cases hlp : env.firstLoop <;> dsimp only
    · simp
    · rw [recoverBranch_req_iff, ← hlist]
      simp
    · rw [recoverBranch_req_iff, ← hlist]
      simp
    · rw [recoverBranch_req_iff, ← hlist]
      simp
  · unfold explorerRun
    cases hfl : env.firstLaunch <;> cases hlp : env.firstLoop <;> dsimp only <;>
      intro p hp hreq
    · simp at hreq
    · exact recoverBranch_dead_eq _ _ _ _ _ _ _ _ p hp hreq
    · exact recoverBranch_dead_eq _ _ _ _ _ _ _ _ p hp hreq
    · exact recoverBranch_dead_eq _ _ _ _ _ _ _ _ p hp hreq
  · unfold explorerRun
    cases hfl : env.firstLaunch <;> cases hlp : env.firstLoop <;> dsimp only <;>
      intro ctx1 ctx2 hpair
    · simp at hpair
    · rcases recoverBranch_ctxs ((ProxyManager.getNext pm).2)
        ((ProxyManager.getNext pm).1) (cfgUrl :: env.visitedGrowth) tp td st env
        [⟨[cfgUrl], tp, td, st⟩] with hc | ⟨hc, _⟩ <;> rw [hc] at hpair
      · simp at hpair
      · simp only [List.cons_append, List.nil_append] at hpair
        obtain ⟨h1, h2⟩ := List.cons.inj hpair
        obtain ⟨h3, _⟩ := List.cons.inj h2
        exact ⟨h3.symm, h1.symm⟩
    · rcases recoverBranch_ctxs ((ProxyManager.getNext pm).2)
        ((ProxyManager.getNext pm).1) [] tp td st env [] with hc | ⟨hc, _⟩ <;>
        rw [hc] at hpair <;> simp at hpair
    · rcases recoverBranch_ctxs ((ProxyManager.getNext pm).2)
        ((ProxyManager.getNext pm).1) [] tp td st env [] with hc | ⟨hc, _⟩ <;>
        rw [hc] at hpair <;> simp at hpair
  · unfold explorerRun
    cases hfl : env.firstLaunch <;> cases hlp : env.firstLoop <;> dsimp only <;>
      intro hrl
    · simp
    · rw [recoverBranch_launchFail _ _ _ _ _ _ _ _ hrl]
      simp
    · rw [recoverBranch_launchFail _ _ _ _ _ _ _ _ hrl]
      simp
    · rw [recoverBranch_launchFail _ _ _ _ _ _ _ _ hrl]
      simp

/-- Witness for `recovery_protocol`: on the 3-entry sample pool, with the
first loop attempt throwing after one visited page, recovery is attempted. -/
theorem recovery_protocol_witness :
    (explorerRun ProxyManager.samplePool "http://a:1/" 5 60 1000
      ⟨none, some "net error", ["http://a:1/x"], none, none⟩).recoveryRequested
      = true :=
  (recovery_protocol ProxyManager.samplePool "http://a:1/" 5 60 1000
      ⟨none, some "net error", ["http://a:1/x"], none, none⟩).2.2.1.mpr
    ⟨Or.inr rfl, by decide, by decide⟩

/-! ### Link collection and fallback navigation
(`collectInternalLinks` and `navigateToRandomLink` in
`src/actions/navigate.ts`, `shuffle` in `src/humanizer.ts`)

The page's anchor set is the external input: each `a[href]` anchor is its
WHATWG-parsed URL (`none` when `new URL(href)` throws).  `collectInternalLinks`
keeps same-origin anchors, normalizes them to `origin + pathname + search`
(hash stripped by construction) and deduplicates via `[...new Set(links)]`
(first occurrence kept).  `navigateToRandomLink` filters out visited URLs,
Fisher-Yates-shuffles the rest and targets the first element of the
shuffle. -/

/-- A WHATWG-parsed URL, reduced to the components the collector reads. -/
structure UrlParts where
  origin : String
  pathname : String
  search : String
  hash : String
  deriving DecidableEq, Repr

/-- The current page as the collector sees it: its raw URL, its parsed
origin, and the parse of each anchor's `href` in document order. -/
structure PageLinks where
  rawUrl : String
  pageOrigin : String
  anchors : List (Option UrlParts)
  deriving DecidableEq, Repr

/-- `` `${url.origin}${url.pathname}${url.search}` `` — the hash never enters. -/
def normalizeLink (u : UrlParts) : String :=
  u.origin ++ u.pathname ++ u.search

/-- `[...new Set(links)]`: deduplicate keeping first occurrences. -/
def dedupAux {α : Type} [DecidableEq α] : List α → List α → List α
  | [], _ => []
  | a :: as, seen =>
    if a ∈ seen then dedupAux as seen else a :: dedupAux as (a :: seen)

/-- JavaScript `[...new Set(l)]`. -/
def jsDedup {α : Type} [DecidableEq α] (l : List α) : List α :=
  dedupAux l []

/-- `collectInternalLinks(page)`: bail out on non-http pages; map each anchor
to its normalized same-origin form or `null` (parse failure or foreign
origin), filter the nulls, deduplicate. -/
def collectInternalLinks (p : PageLinks) : List String :=
  if strStartsWith p.rawUrl "http" = false then []
  else
    jsDedup (p.anchors.filterMap (fun a =>
      match a with
      | none => none
      | some u =>
        if u.origin = p.pageOrigin then some (normalizeLink u) else none))

lemma dedupAux_mem {α : Type} [DecidableEq α] (l : List α) :
    ∀ (seen : List α) (x : α), x ∈ dedupAux l seen ↔ x ∈ l ∧ x ∉ seen := by
  induction l with
  | nil => intro seen x; simp [dedupAux]
  | cons a as ih =>
    intro seen x
    unfold dedupAux
    by_cases ha : a ∈ seen
    · rw [if_pos ha, ih]
      constructor
      · rintro ⟨h1, h2⟩; exact ⟨List.mem_cons_of_mem _ h1, h2⟩
      · rintro ⟨h1, h2⟩
        rcases List.mem_cons.mp h1 with rfl | h1
        · exact absurd ha h2
        · exact ⟨h1, h2⟩
    · rw [if_neg ha]
      by_cases hx : x = a
      · subst hx; simp [ha]
      · simp only [List.mem_cons, hx, false_or]
        rw [ih]
        simp [hx]

lemma dedupAux_nodup {α : Type} [DecidableEq α] (l : List α) :
    ∀ seen : List α, (dedupAux l seen).Nodup := by
  induction l with
  | nil => intro seen; simp [dedupAux]
  | cons a as ih =>
    intro seen
    unfold dedupAux
    by_cases ha : a ∈ seen
    · rw [if_pos ha]; exact ih seen
    · rw [if_neg ha]
      refine List.nodup_cons.mpr ⟨?_, ih (a :: seen)⟩
      intro hmem
      exact ((dedupAux_mem as (a :: seen) a).mp hmem).2 (List.mem_cons_self a seen)

lemma jsDedup_mem {α : Type} [DecidableEq α] (l : List α) (x : α) :
    x ∈ jsDedup l ↔ x ∈ l := by
  unfold jsDedup
  rw [dedupAux_mem]
  simp

lemma jsDedup_nodup {α : Type} [DecidableEq α] (l : List α) :
    (jsDedup l).Nodup := dedupAux_nodup l []

lemma dedupAux_eq_self {α : Type} [DecidableEq α] (l : List α) :
    ∀ seen : List α, l.Nodup → (∀ x ∈ l, x ∉ seen) → dedupAux l seen = l := by
  induction l with
  | nil => intro seen _ _; rfl
  | cons a as ih =>
    intro seen hnd hdis
    unfold dedupAux
    rw [if_neg (hdis a (List.mem_cons_self a as))]
    congr 1
    refine ih (a :: seen) (List.nodup_cons.mp hnd).2 ?_
    intro x hx
    intro hmem
    rcases List.mem_cons.mp hmem with rfl | hmem
    · exact (List.nodup_cons.mp hnd).1 hx
    · exact hdis x (List.mem_cons_of_mem _ hx) hmem

lemma jsDedup_idem {α : Type} [DecidableEq α] (l : List α) :
    jsDedup (jsDedup l) = jsDedup l :=
  dedupAux_eq_self (jsDedup l) [] (jsDedup_nodup l) (by simp)

/-- One swap `[result[i], result[j]] = [result[j], result[i]]` of the
Fisher-Yates loop. -/
def listSwap {α : Type} (l : List α) (i j : ℕ) : List α :=
  match l.get? i, l.get? j with
  | some a, some b => (l.set i b).set j a
  | _, _ => l

/-- The Fisher-Yates loop of `shuffle`, from `i = n-1` down to `1`, consuming
one `randomInt(0, i)` draw per step from the seed list. -/
def fyFrom {α : Type} (l : List α) : ℕ → List ℕ → List α
  | 0, _ => l
  | _ + 1, [] => l
  | i + 1, j :: s => fyFrom (listSwap l (i + 1) j) i s

/-- `shuffle(arr)` from `src/humanizer.ts` with the random draws explicit. -/
def shuffle {α : Type} (l : List α) (seed : List ℕ) : List α :=
  fyFrom l (l.length - 1) seed

/-- Every possible draw sequence of the Fisher-Yates run from index `i`
(the draw at index `k` ranges over `0..k`, as `randomInt(0, k)` does). -/
def seedsFor : ℕ → List (List ℕ)
  | 0 => [[]]
  | i + 1 =>
    (List.range (i + 2)).flatMap (fun j => (seedsFor i).map (fun s => j :: s))

/-- `allLinks.filter(url => !visitedUrls.has(url))` in `navigateToRandomLink`. -/
def unvisitedLinks (p : PageLinks) (visited : List String) : List String :=
  (collectInternalLinks p).filter (fun u => decide (u ∉ visited))

/-- `navigateToRandomLink`'s choice of target: filter out visited links,
`none` when nothing remains, else the head of the shuffled rest (the
subsequent `goto` may still fail, which does not change the chosen
target). -/
def navTarget (p : PageLinks) (visited : List String) (seed : List ℕ) :
    Option String :=
  let unvisited := unvisitedLinks p visited
  if unvisited.isEmpty then none
  else (shuffle unvisited seed).head?

lemma cons_set_perm {α : Type} :
    ∀ (as : List α) (k : ℕ) (hk : k < as.length) (a : α),
      (as.get ⟨k, hk⟩ :: as.set k a).Perm (a :: as) := by
  intro as
  induction as with
  | nil => intro k hk; exact absurd hk (by simp)
  | cons b bs ih =>
    intro k hk a
    cases k with
    | zero => exact List.Perm.swap a b bs
    | succ k' =>
      have hk' : k' < bs.length := by simpa using hk
      exact ((List.Perm.swap b _ _).trans (((ih k' hk' a)).cons b)).trans
        (List.Perm.swap a b bs)

lemma set_get_self {α : Type} (l : List α) (i : ℕ) (hi : i < l.length) :
    l.set i (l.get ⟨i, hi⟩) = l := by
  apply List.ext_get?
  intro n
  by_cases hn : i = n
  · subst hn
    rw [List.get?_eq_getElem?, List.get?_eq_getElem?,
      List.getElem?_set_eq_of_lt _ hi, List.getElem?_eq_getElem hi]
    rfl
  · rw [List.get?_eq_getElem?, List.get?_eq_getElem?, List.getElem?_set_ne hn]

lemma listSwap_perm {α : Type} (l : List α) (i j : ℕ) : (listSwap l i j).Perm l := by
  unfold listSwap
  cases hi : l.get? i with
  | none => exact List.Perm.refl l
  | some a =>
    cases hj : l.get? j with
    | none => exact List.Perm.refl l
    | some b =>
      obtain ⟨hil, hig⟩ := List.get?_eq_some.mp hi
      obtain ⟨hjl, hjg⟩ := List.get?_eq_some.mp hj
      dsimp only
      by_cases hij : i = j
      · subst hij
        have hab : a = b := by rw [← hig, ← hjg]
        subst hab
        rw [List.set_set, ← hig, set_get_self]
      · have p1 : (l.get ⟨i, hil⟩ :: l.set i b).Perm (b :: l) := cons_set_perm l i hil b
        have hj1 : j < (l.set i b).length := by simpa using hjl
        have p2 : ((l.set i b).get ⟨j, hj1⟩ :: (l.set i b).set j a).Perm
            (a :: l.set i b) := cons_set_perm (l.set i b) j hj1 a
        have hgetj : (l.set i b).get ⟨j, hj1⟩ = b := by
          have h1 : (l.set i b)[j]? = l[j]? := List.getElem?_set_ne hij
          rw [List.getElem?_eq_getElem hj1, List.getElem?_eq_getElem hjl] at h1
          have h2 : (l.set i b)[j] = l[j] := Option.some.inj h1
          rw [List.get_eq_getElem, h2]
          exact hjg
        rw [hgetj] at p2
        rw [hig] at p1
        -- pass to multisets and cancel the common head `b`
        have m1 : (a ::ₘ (l.set i b : Multiset α)) = (b ::ₘ (l : Multiset α)) := by
          have := (Multiset.coe_eq_coe).mpr p1
          simpa using this
        have m2 : (b ::ₘ ((l.set i b).set j a : Multiset α))
            = (a ::ₘ (l.set i b : Multiset α)) := by
          have := (Multiset.coe_eq_coe).mpr p2
          simpa using this
        have m3 : (b ::ₘ ((l.set i b).set j a : Multiset α))
            = (b ::ₘ (l : Multiset α)) := m2.trans m1
        have := (Multiset.cons_inj_right b).mp m3
        exact (Multiset.coe_eq_coe).mp this

lemma listSwap_length {α : Type} (l : List α) (i j : ℕ) :
    (listSwap l i j).length = l.length := (listSwap_perm l i j).length_eq

lemma listSwap_nodup {α : Type} {l : List α} (h : l.Nodup) (i j : ℕ) :
    (listSwap l i j).Nodup := (listSwap_perm l i j).nodup_iff.mpr h

/-- After the swap, position `j` holds the old entry of position `i`. -/
lemma listSwap_getElem?_left {α : Type} (l : List α) (i j : ℕ)
    (hi : i < l.length) (hj : j < l.length) :
    (listSwap l i j)[j]? = l[i]? := by
  unfold listSwap
  rw [List.get?_eq_getElem?, List.get?_eq_getElem?,
    List.getElem?_eq_getElem hi, List.getElem?_eq_getElem hj]
  have hj' : j < (l.set i l[j]).length := by simpa using hj
  rw [List.getElem?_set_eq_of_lt _ hj']

/-- After the swap, position `i` holds the old entry of position `j`. -/
lemma listSwap_getElem?_right {α : Type} (l : List α) (i j : ℕ)
    (hi : i < l.length) (hj : j < l.length) :
    (listSwap l i j)[i]? = l[j]? := by
  unfold listSwap
  rw [List.get?_eq_getElem?, List.get?_eq_getElem?,
    List.getElem?_eq_getElem hi, List.getElem?_eq_getElem hj]
  by_cases hij : i = j
  · subst hij
    have hi' : i < (l.set i l[i]).length := by simpa using hi
    rw [List.getElem?_set_eq_of_lt _ hi']
  · rw [List.getElem?_set_ne (fun hc => hij hc.symm)]
    rw [List.getElem?_set_eq_of_lt _ hi]

/-- Positions other than `i` and `j` are untouched by the swap. -/
lemma listSwap_getElem?_other {α : Type} (l : List α) (i j t : ℕ)
    (hti : t ≠ i) (htj : t ≠ j) :
    (listSwap l i j)[t]? = l[t]? := by
  unfold listSwap
  cases hi : l.get? i with
  | none => rfl
  | some a =>
    cases hj : l.get? j with
    | none => rfl
    | some b =>
      rw [List.getElem?_set_ne (fun hc => htj hc.symm),
        List.getElem?_set_ne (fun hc => hti hc.symm)]

lemma fyFrom_perm {α : Type} :
    ∀ (i : ℕ) (l : List α) (s : List ℕ), (fyFrom l i s).Perm l := by
  intro i
  induction i with
  | zero => intro l s; exact List.Perm.refl l
  | succ i ih =>
    intro l s
    cases s with
    | nil => exact List.Perm.refl l
    | cons j s' => exact (ih _ s').trans (listSwap_perm l (i + 1) j)

lemma fyFrom_length {α : Type} (i : ℕ) (l : List α) (s : List ℕ) :
    (fyFrom l i s).length = l.length := (fyFrom_perm i l s).length_eq

lemma seedsFor_succ (i : ℕ) :
    seedsFor (i + 1)
      = (List.range (i + 2)).flatMap (fun j => (seedsFor i).map (fun s => j :: s)) :=
  rfl

lemma seedsFor_mem_succ {i : ℕ} {s : List ℕ} :
    s ∈ seedsFor (i + 1) ↔ ∃ j t, j < i + 2 ∧ t ∈ seedsFor i ∧ s = j :: t := by
  rw [seedsFor_succ, List.mem_flatMap]
  constructor
  · rintro ⟨j, hj, hmem⟩
    obtain ⟨t, ht, rfl⟩ := List.mem_map.mp hmem
    exact ⟨j, t, List.mem_range.mp hj, ht, rfl⟩
  · rintro ⟨j, t, hj, ht, rfl⟩
    exact ⟨j, List.mem_range.mpr hj, List.mem_map.mpr ⟨t, ht, rfl⟩⟩

lemma mem_take_iff {α : Type} {l : List α} {n : ℕ} {x : α} :
    x ∈ l.take n ↔ ∃ m, m < n ∧ l[m]? = some x := by
  constructor
  · intro hx
    obtain ⟨m, hm⟩ := List.get?_of_mem hx
    obtain ⟨hlen, _⟩ := List.get?_eq_some.mp hm
    have hmn : m < n := lt_of_lt_of_le hlen (by simp [List.length_take])
    refine ⟨m, hmn, ?_⟩
    rw [← List.get?_eq_getElem?, ← List.get?_take hmn]
    exact hm
  · rintro ⟨m, hmn, hget⟩
    have : (l.take n).get? m = some x := by
      rw [List.get?_take hmn, List.get?_eq_getElem?]
      exact hget
    exact List.get?_mem this

/-- The head of a Fisher-Yates run from index `i` comes from the first
`i + 1` entries of the input. -/
lemma fyFrom_head_take {α : Type} :
    ∀ (i : ℕ) (l : List α) (s : List ℕ), s ∈ seedsFor i → i < l.length →
      ∀ x, (fyFrom l i s).head? = some x → x ∈ l.take (i + 1) := by
  intro i
  induction i with
  | zero =>
    intro l s hs hlen x hx
    have hs0 : s = [] := by simpa [seedsFor] using hs
    subst hs0
    refine mem_take_iff.mpr ⟨0, by omega, ?_⟩
    rw [← List.head?_eq_getElem?]
    exact hx
  | succ i ih =>
    intro l s hs hlen x hx
    obtain ⟨j, t, hj, ht, rfl⟩ := seedsFor_mem_succ.mp hs
    have hlen' : i < (listSwap l (i + 1) j).length := by
      rw [listSwap_length]; omega
    have hx' : x ∈ (listSwap l (i + 1) j).take (i + 1) :=
      ih (listSwap l (i + 1) j) t ht hlen' x hx
    obtain ⟨m, hm, hget⟩ := mem_take_iff.mp hx'
    by_cases hmj : m = j
    · subst hmj
      rw [listSwap_getElem?_left l (i + 1) m (by omega) (by omega)] at hget
      exact mem_take_iff.mpr ⟨i + 1, by omega, hget⟩
    · rw [listSwap_getElem?_other l (i + 1) j m (by omega) hmj] at hget
      exact mem_take_iff.mpr ⟨m, by omega, hget⟩

/-- Erase a parsed URL's hash fragment. -/
def stripHash (u : UrlParts) : UrlParts :=
  { u with hash := "" }

lemma countP_flatMap {β γ : Type} (l : List β) (f : β → List γ) (p : γ → Bool) :
    (l.flatMap f).countP p = (l.map (fun b => (f b).countP p)).sum := by
  induction l with
  | nil => simp
  | cons a as ih => simp [List.flatMap_cons, List.countP_append, ih]

lemma sum_map_range_ite (n b c : ℕ) (hb : b < n) :
    ((List.range n).map (fun j => if j = b then 0 else c)).sum = (n - 1) * c := by
  induction n with
  | zero => omega
  | succ n ih =>
    rw [List.range_succ, List.map_append, List.sum_append]
    by_cases hbn : b = n
    · subst hbn
      have hconst : (List.range b).map (fun j => if j = b then 0 else c)
          = (List.range b).map (fun _ => c) :=
        List.map_congr_left (fun j hj => if_neg (by
          have := List.mem_range.mp hj; omega))
      rw [hconst, List.map_const', List.sum_replicate]
      simp [Nat.succ_sub_one, smul_eq_mul]
    · have hb' : b < n := by omega
      rw [ih hb']
      have hlast : ((([n] : List ℕ)).map (fun j => if j = b then 0 else c)).sum
          = c := by
        simp only [List.map_cons, List.map_nil, List.sum_cons, List.sum_nil, add_zero]
        rw [if_neg (fun h : n = b => hbn h.symm)]
      rw [hlast]
      cases n with
      | zero => omega
      | succ m => simp [Nat.succ_sub_one, Nat.succ_mul]

lemma seedsFor_length (i : ℕ) : (seedsFor i).length = (i + 1).factorial := by
  induction i with
  | zero => rfl
  | succ i ih =>
    rw [seedsFor_succ, List.length_flatMap]
    have hconst : (List.range (i + 2)).map
        (List.length ∘ fun j => (seedsFor i).map (fun s => j :: s))
        = (List.range (i + 2)).map (fun _ => (i + 1).factorial) :=
      List.map_congr_left (fun j _ => by simp [ih])
    rw [hconst, List.map_const', List.sum_replicate]
    simp [Nat.factorial_succ, smul_eq_mul]

/-- Uniformity of the Fisher-Yates head: over all seeds of the run from
index `i`, each of the first `i + 1` entries of a duplicate-free list ends up
in front equally often — in exactly `i!` of the `(i+1)!` seeds. -/
lemma fy_head_count {α : Type} [DecidableEq α] :
    ∀ (i : ℕ) (l : List α), l.Nodup → i < l.length →
      ∀ (t : ℕ) (x : α), t ≤ i → l[t]? = some x →
        (seedsFor i).countP (fun s => decide ((fyFrom l i s).head? = some x))
          = i.factorial := by
  intro i
  induction i with
  | zero =>
    intro l hnd hlen t x ht hget
    have ht0 : t = 0 := by omega
    subst ht0
    have hhead : l.head? = some x := by rw [List.head?_eq_getElem?]; exact hget
    simp [seedsFor, List.countP_cons, fyFrom, hhead, Nat.factorial]
  | succ i ih =>
    intro l hnd hlen t x ht hget
    rw [seedsFor_succ, countP_flatMap]
    have hmapped : (List.range (i + 2)).map
        (fun j => ((seedsFor i).map (fun s => j :: s)).countP
          (fun s => decide ((fyFrom l (i + 1) s).head? = some x)))
        = (List.range (i + 2)).map (fun j => if j = t then 0 else i.factorial) := by
      apply List.map_congr_left
      intro j hj
      have hj2 : j < i + 2 := List.mem_range.mp hj
      rw [List.countP_map]
      have hswaplen : (listSwap l (i + 1) j).length = l.length := listSwap_length l _ _
      have hswapnd : (listSwap l (i + 1) j).Nodup := listSwap_nodup hnd _ _
      by_cases hjt : j = t
      · subst hjt
        rw [if_pos rfl]
        apply List.countP_eq_zero.mpr
        intro s hs hP
        have hP' : (fyFrom (listSwap l (i + 1) j) i s).head? = some x :=
          of_decide_eq_true hP
        have hback : (listSwap l (i + 1) j)[i + 1]? = some x := by
          rw [listSwap_getElem?_right l (i + 1) j (by omega) (by omega)]
          exact hget
        have hmem : x ∈ (listSwap l (i + 1) j).take (i + 1) :=
          fyFrom_head_take i (listSwap l (i + 1) j) s hs (by omega) x hP'
        obtain ⟨m, hm, hgetm⟩ := mem_take_iff.mp hmem
        have : m = i + 1 :=
          List.getElem?_inj (by omega) hswapnd (by rw [hgetm, hback])
        omega
      · rw [if_neg hjt]
        by_cases hti : t = i + 1
        · subst hti
          have hjle : j ≤ i := by omega
          have hpos : (listSwap l (i + 1) j)[j]? = some x := by
            rw [listSwap_getElem?_left l (i + 1) j (by omega) (by omega)]
            exact hget
          exact ih (listSwap l (i + 1) j) hswapnd (by omega) j x hjle hpos
        · have hti' : t ≤ i := by omega
          have hpos : (listSwap l (i + 1) j)[t]? = some x := by
            rw [listSwap_getElem?_other l (i + 1) j t (by omega) (Ne.symm hjt)]
            exact hget
          exact ih (listSwap l (i + 1) j) hswapnd (by omega) t x hti' hpos
    rw [hmapped, sum_map_range_ite (i + 2) t i.factorial (by omega)]
    have h21 : i + 2 - 1 = i + 1 := by omega
    rw [h21, Nat.factorial_succ]

/-- C8: link collection is a pure function of the page's anchor set whose
result is duplicate-free and already deduplicated (collecting again changes
nothing); a URL is collected exactly when some anchor parses to a
same-origin URL normalizing to it (origin + path + query); the anchors'
hashes never influence the result; and the fallback navigation target is
drawn uniformly from the collected links not yet visited: each unvisited
link is the target for exactly `(n-1)!` of the `n!` Fisher-Yates seeds. -/
theorem link_collection (p : PageLinks) (visited : List String) :
    (collectInternalLinks p).Nodup ∧
    jsDedup (collectInternalLinks p) = collectInternalLinks p ∧
    (∀ x, x ∈ collectInternalLinks p ↔
      (strStartsWith p.rawUrl "http" = true ∧
       ∃ u, some u ∈ p.anchors ∧ u.origin = p.pageOrigin ∧ x = normalizeLink u)) ∧
    collectInternalLinks
        { p with anchors := p.anchors.map (Option.map stripHash) }
      = collectInternalLinks p ∧
    (∀ x, x ∈ unvisitedLinks p visited →
      (seedsFor ((unvisitedLinks p visited).length - 1)).countP
          (fun s => decide (navTarget p visited s = some x))
        = ((unvisitedLinks p visited).length - 1).factorial) ∧
    (seedsFor ((unvisitedLinks p visited).length - 1)).length
      = ((unvisitedLinks p visited).length - 1 + 1).factorial := by
  refine ⟨?_, ?_, ?_, ?_, ?_, seedsFor_length _⟩
  · unfold collectInternalLinks
    by_cases hs : strStartsWith p.rawUrl "http" = false
    · rw [if_pos hs]; exact List.nodup_nil
    · rw [if_neg hs]; exact jsDedup_nodup _
  · unfold collectInternalLinks
    by_cases hs : strStartsWith p.rawUrl "http" = false
    · rw [if_pos hs]; rfl
    · rw [if_neg hs]; exact jsDedup_idem _
  · intro x
    unfold collectInternalLinks
    by_cases hs : strStartsWith p.rawUrl "http" = false
    · rw [if_pos hs]
      simp [hs]
    · have hs' : strStartsWith p.rawUrl "http" = true := by
        revert hs; cases strStartsWith p.rawUrl "http" <;> simp
      rw [if_neg hs, jsDedup_mem, List.mem_filterMap]
      constructor
      · rintro ⟨a, ha, hfa⟩
        cases a with
        | none => exact absurd hfa (by simp)
        | some u =>
          dsimp only at hfa
          by_cases ho : u.origin = p.pageOrigin
          · rw [if_pos ho] at hfa
            exact ⟨hs', u, ha, ho, (Option.some.inj hfa).symm⟩
          · rw [if_neg ho] at hfa
            exact absurd hfa (by simp)
      · rintro ⟨_, u, hu, ho, rfl⟩
        exact ⟨some u, hu, by dsimp only; rw [if_pos ho]⟩
  · unfold collectInternalLinks
    by_cases hs : strStartsWith p.rawUrl "http" = false
    · rw [if_pos hs, if_pos hs]
    · rw [if_neg hs, if_neg hs]
      have hanch : ({ p with anchors := p.anchors.map (Option.map stripHash) } :
            PageLinks).anchors = p.anchors.map (Option.map stripHash) := rfl
      rw [hanch, List.filterMap_map]
      apply congrArg jsDedup
      apply List.filterMap_congr
      intro a _
      cases a <;> rfl
  · intro x hx
    have hnodup : (unvisitedLinks p visited).Nodup := by
      unfold unvisitedLinks
      apply List.Nodup.filter
      unfold collectInternalLinks
      by_cases hs : strStartsWith p.rawUrl "http" = false
      · rw [if_pos hs]; exact List.nodup_nil
      · rw [if_neg hs]; exact jsDedup_nodup _
    have hpos : 0 < (unvisitedLinks p visited).length := List.length_pos_of_mem hx
    obtain ⟨tn, htg⟩ := List.get?_of_mem hx
    have htlen : tn < (unvisitedLinks p visited).length := (List.get?_eq_some.mp htg).1
    have hne : (unvisitedLinks p visited).isEmpty = false := by
      rcases Bool.eq_false_or_eq_true (unvisitedLinks p visited).isEmpty with h | h
      · rw [List.isEmpty_iff] at h
        rw [h] at hx
        exact absurd hx (List.not_mem_nil x)
      · exact h
    have hcongr : (seedsFor ((unvisitedLinks p visited).length - 1)).countP
          (fun s => decide (navTarget p visited s = some x))
        = (seedsFor ((unvisitedLinks p visited).length - 1)).countP
          (fun s => decide ((fyFrom (unvisitedLinks p visited)
            ((unvisitedLinks p visited).length - 1) s).head? = some x)) := by
      apply List.countP_congr
      intro s _
      rw [decide_eq_true_iff, decide_eq_true_iff]
      unfold navTarget shuffle
      rw [if_neg (by rw [hne]; exact Bool.false_ne_true)]
    rw [hcongr]
    exact fy_head_count ((unvisitedLinks p visited).length - 1)
      (unvisitedLinks p visited) hnodup (by omega) tn x (by omega)
      (by rw [← List.get?_eq_getElem?]; exact htg)

/-- A concrete page for the witness: three same-origin anchors (one a
hash-duplicate of another), one foreign-origin anchor, one unparseable
anchor. -/
def samplePage : PageLinks :=
  ⟨"http://s/a", "http://s",
   [some ⟨"http://s", "/x", "", "#frag"⟩,
    some ⟨"http://s", "/x", "", ""⟩,
    some ⟨"http://t", "/y", "", ""⟩,
    none,
    some ⟨"http://s", "/z", "", ""⟩]⟩

/-- Witness for `link_collection`: with `/z` already visited, `/x` is the
only unvisited link and is chosen by every one of the `0! = 1` seeds. -/
theorem link_collection_witness :
    (seedsFor ((unvisitedLinks samplePage ["http://s/z"]).length - 1)).countP
        (fun s => decide (navTarget samplePage ["http://s/z"] s = some "http://s/x"))
      = ((unvisitedLinks samplePage ["http://s/z"]).length - 1).factorial :=
  (link_collection samplePage ["http://s/z"]).2.2.2.2.1 "http://s/x" (by decide)

/-! ### Gaussian delay helper
(`gaussianRandom` in `src/humanizer.ts`, `simulateReading` in
`src/actions/idle.ts`)

`gaussianRandom` is the Box-Muller transform over two uniform draws;
`simulateReading` rounds the sample and clamps it with
`Math.max(3000, Math.min(12000, …))`.  The float arithmetic is modelled
over ℝ. -/

/-- `gaussianRandom(mean, stddev)`:
`sqrt(-2 ln u1) · cos(2π u2) · stddev + mean`. -/
noncomputable def gaussianRandom (mean stddev u1 u2 : ℝ) : ℝ :=
  Real.sqrt (-2 * Real.log u1) * Real.cos (2 * Real.pi * u2) * stddev + mean

/-- The reading duration of `simulateReading`:
`Math.max(3000, Math.min(12000, Math.round(gaussianRandom(6000, 2000))))`. -/
noncomputable def simulateReadingDuration (u1 u2 : ℝ) : ℤ :=
  max 3000 (min 12000 (round (gaussianRandom 6000 2000 u1 u2)))

/-- C9 (amended): the clamped reading duration lies in `[3000, 12000]` for
every value of the underlying uniform random source; the sample-mean bound
of the original claim holds only in distribution, not for every draw
sequence. -/
theorem gaussian_clamp_bounds (u1 u2 : ℝ) :
    3000 ≤ simulateReadingDuration u1 u2 ∧
    simulateReadingDuration u1 u2 ≤ 12000 := by
  unfold simulateReadingDuration
  refine ⟨le_max_left _ _, ?_⟩
  refine max_le ?_ ?_
  · norm_num
  · exact min_le_left _ _

/-- C9 counterexample: a uniform-source value whose sample clamps to 3000;
a sequence of 10000 such draws has sample mean 3000, which is not within
10% of 6000 — so the mean bound fails for some values of the random
source. -/
theorem gaussian_mean_counterexample :
    simulateReadingDuration (Real.exp (-8)) (1/2) = 3000 ∧
    (List.replicate 10000 (simulateReadingDuration (Real.exp (-8)) (1/2))).sum
      = 10000 * 3000 ∧
    ¬ (|(10000 * 3000 : ℤ) / 10000 - 6000| ≤ 600) := by
  have hval : simulateReadingDuration (Real.exp (-8)) (1/2) = 3000 := by
    unfold simulateReadingDuration gaussianRandom
    rw [Real.log_exp]
    have hcos : Real.cos (2 * Real.pi * (1/2 : ℝ)) = -1 := by
      rw [show 2 * Real.pi * (1/2 : ℝ) = Real.pi by ring]
      exact Real.cos_pi
    have hsqrt : Real.sqrt ((-2 : ℝ) * (-8)) = 4 := by
      rw [show (-2 : ℝ) * (-8) = 4 ^ 2 by norm_num]
      exact Real.sqrt_sq (by norm_num)
    rw [hcos, hsqrt]
    rw [show (4 * -1 * 2000 + 6000 : ℝ) = ((-2000 : ℤ) : ℝ) by norm_num]
    rw [round_intCast]
    norm_num
  refine ⟨hval, ?_, by norm_num⟩
  rw [hval, List.sum_replicate]
  norm_num

/-! ### Typo-then-correct typing (the per-character loop of `humanType`,
`src/actions/type.ts`)

Per character after the first, with 10% probability the loop types a wrong
character computed as
`String.fromCharCode(char.charCodeAt(0) + randomInt(-2, 2))`, pauses,
presses Backspace, then types the correct character.  Characters are their
code units (ℤ). -/

inductive KeyEvent where
  | typeChar (code : ℤ)
  | backspace
  deriving DecidableEq, Repr

/-- The typing loop's per-character random draws. -/
structure TypeDraws where
  typoRoll : ℕ → ℚ
  shiftRoll : ℕ → ℚ

/-- Keystrokes emitted for the character at index `i`:
`if (Math.random() < 0.1 && i > 0)` type the shifted wrong character and
press Backspace; then always type the correct character. -/
def typeCharEvents (d : TypeDraws) (c : ℤ) (i : ℕ) : List KeyEvent :=
  if d.typoRoll i < 1/10 ∧ 0 < i then
    [KeyEvent.typeChar (c + jsRandomInt (-2) 2 (d.shiftRoll i)),
     KeyEvent.backspace,
     KeyEvent.typeChar c]
  else [KeyEvent.typeChar c]

/-- The keystroke stream of the whole typing loop, indices from `start`. -/
def humanTypeEventsAux (d : TypeDraws) : List ℤ → ℕ → List KeyEvent
  | [], _ => []
  | c :: cs, i => typeCharEvents d c i ++ humanTypeEventsAux d cs (i + 1)

/-- The keystroke stream of the typing loop over the term's code units. -/
def humanTypeEvents (d : TypeDraws) (term : List ℤ) : List KeyEvent :=
  humanTypeEventsAux d term 0

/-- Replay of a keystroke stream against a text buffer: `typeChar` appends,
Backspace deletes the last character. -/
def applyEvents : List KeyEvent → List ℤ → List ℤ
  | [], buf => buf
  | KeyEvent.typeChar c :: es, buf => applyEvents es (buf ++ [c])
  | KeyEvent.backspace :: es, buf => applyEvents es buf.dropLast

lemma applyEvents_append (es fs : List KeyEvent) (buf : List ℤ) :
    applyEvents (es ++ fs) buf = applyEvents fs (applyEvents es buf) := by
  induction es generalizing buf with
  | nil => rfl
  | cons e es ih => cases e <;> simp [applyEvents, ih]

lemma applyEvents_humanTypeAux (d : TypeDraws) :
    ∀ (term : List ℤ) (i : ℕ) (buf : List ℤ),
      applyEvents (humanTypeEventsAux d term i) buf = buf ++ term := by
  intro term
  induction term with
  | nil => intro i buf; simp [humanTypeEventsAux, applyEvents]
  | cons c cs ih =>
    intro i buf
    rw [show humanTypeEventsAux d (c :: cs) i
        = typeCharEvents d c i ++ humanTypeEventsAux d cs (i + 1) from rfl]
    rw [applyEvents_append]
    have hchar : applyEvents (typeCharEvents d c i) buf = buf ++ [c] := by
      unfold typeCharEvents
      by_cases h : d.typoRoll i < 1/10 ∧ 0 < i
      · rw [if_pos h]
        show applyEvents _ ((buf ++ [c + jsRandomInt (-2) 2 (d.shiftRoll i)]).dropLast ++ [c]) = _
        rw [List.dropLast_concat]
        rfl
      · rw [if_neg h]
        rfl
    rw [hchar, ih (i + 1) (buf ++ [c]), List.append_assoc]
    rfl

/-- C10 (amended): for every character after the first, with probability 10%
the typing loop emits a wrong character that is the correct character
shifted by `randomInt(-2, 2)` code units (a uniformly drawn offset between
−2 and +2, possibly zero — not exactly one), presses Backspace, and then
types the correct character; otherwise it types the correct character
directly; every typo is corrected, so the replayed keystroke stream always
reproduces the term. -/
theorem typo_then_correct (d : TypeDraws) (term : List ℤ) :
    (∀ (c : ℤ) (i : ℕ), d.typoRoll i < 1/10 ∧ 0 < i →
      typeCharEvents d c i =
        [KeyEvent.typeChar (c + jsRandomInt (-2) 2 (d.shiftRoll i)),
         KeyEvent.backspace, KeyEvent.typeChar c]) ∧
    (∀ (c : ℤ) (i : ℕ), ¬(d.typoRoll i < 1/10 ∧ 0 < i) →
      typeCharEvents d c i = [KeyEvent.typeChar c]) ∧
    (∀ r : ℚ, 0 ≤ r → r < 1 →
      -2 ≤ jsRandomInt (-2) 2 r ∧ jsRandomInt (-2) 2 r ≤ 2) ∧
    applyEvents (humanTypeEvents d term) [] = term := by
  refine ⟨?_, ?_, ?_, ?_⟩
  · intro c i h
    unfold typeCharEvents
    rw [if_pos h]
  · intro c i h
    unfold typeCharEvents
    rw [if_neg h]
  · intro r h0 h1
    unfold jsRandomInt
    have h5 : (((2 : ℤ) : ℚ) - ((-2 : ℤ) : ℚ) + 1) = 5 := by push_cast; norm_num
    rw [h5]
    constructor
    · have : (0 : ℤ) ≤ ⌊r * 5⌋ := Int.floor_nonneg.mpr (by nlinarith)
      omega
    · have : ⌊r * 5⌋ < 5 := Int.floor_lt.mpr (by push_cast; nlinarith)
      omega
  · rw [show humanTypeEvents d term = humanTypeEventsAux d term 0 from rfl,
      applyEvents_humanTypeAux]
    rfl

/-- Witness for `typo_then_correct`: with the typo draw firing at index 1,
the loop emits wrong-char / Backspace / correct-char. -/
theorem typo_then_correct_witness :
    typeCharEvents ⟨fun _ => 0, fun _ => 9/10⟩ 98 1 =
      [KeyEvent.typeChar (98 + jsRandomInt (-2) 2 (9/10)),
       KeyEvent.backspace, KeyEvent.typeChar 98] :=
  (typo_then_correct ⟨fun _ => 0, fun _ => 9/10⟩ []).1 98 1 ⟨by norm_num, by norm_num⟩

/-- C10 counterexample: at shift draw 0.9 the wrong character is the correct
one shifted by two code units (`randomInt(-2, 2) = 2`), not exactly one:
for the character `b` (98) the typo char is `d` (100), which is neither 97
nor 99. -/
theorem typo_shift_counterexample :
    typeCharEvents ⟨fun _ => 0, fun _ => 9/10⟩ 98 1 =
      [KeyEvent.typeChar 100, KeyEvent.backspace, KeyEvent.typeChar 98] ∧
    (100 : ℤ) ≠ 98 + 1 ∧ (100 : ℤ) ≠ 98 - 1 := by
  refine ⟨?_, by norm_num, by norm_num⟩
  unfold typeCharEvents
  rw [if_pos ⟨by norm_num, by norm_num⟩]
  norm_num [jsRandomInt]

end WebExplorer
